import Mathlib

/-!
A shallow embedding of the conference-program data pipeline of this
repository: the slug generator, the three source loaders, the program
merger (`programData`), the calendar exporter (`createICS`,
`createICSForSession`) and the talk lookup index (`findTalk`),
translated from `ProgramPage.jsx` and the `TalkPage` component, together
with theorems about the documented data-integrity properties.
-/

/-! ### JavaScript-modelling helpers -/

/-- JS truthiness for an optional string: `undefined`/`null` and `""` are falsy. -/
def truthyStr (a : Option String) : Option String :=
  match a with
  | some s => if s = "" then none else some s
  | none => none

/-- JS `a || b` for an optional string `a` with a string default `b`. -/
def jsOr (a : Option String) (b : String) : String :=
  match truthyStr a with
  | some s => s
  | none => b

/-- JS `String(x)` applied to a possibly-`undefined` string
(`String(undefined) = "undefined"`). -/
def jsStringU (a : Option String) : String := a.getD "undefined"

/-- JS `String.prototype.trim`: strip whitespace from both ends. -/
def jsTrim (s : String) : String :=
  String.mk (((s.data.dropWhile Char.isWhitespace).reverse.dropWhile Char.isWhitespace).reverse)

/-- JS `String.prototype.toLowerCase`, on the ASCII range (the characters
relevant to the data and to the `[a-z0-9]` slug class). -/
def lowerStr (s : String) : String := String.mk (s.data.map Char.toLower)

/-- `needle` is a prefix of `hay` (on character lists). -/
def startsWithL : List Char → List Char → Bool
  | [], _ => true
  | _ :: _, [] => false
  | a :: as, b :: bs => a == b && startsWithL as bs

/-- `needle` occurs contiguously inside `hay` (on character lists). -/
def isInfixL (needle : List Char) : List Char → Bool
  | [] => needle.isEmpty
  | c :: rest => startsWithL needle (c :: rest) || isInfixL needle rest

/-- JS `hay.includes(needle)`. -/
def includesStr (hay needle : String) : Bool := isInfixL needle.data hay.data

/-- Lexicographic comparison of character lists, as JS's default
`Array.prototype.sort` comparator orders strings. -/
def lexLe : List Char → List Char → Bool
  | [], _ => true
  | _ :: _, [] => false
  | a :: as, b :: bs => if a == b then lexLe as bs else decide (a < b)

/-- Insert into a `lexLe`-sorted list of strings. -/
def insertLe (x : String) : List String → List String
  | [] => [x]
  | y :: ys => if lexLe x.data y.data then x :: y :: ys else y :: insertLe x ys

/-- JS `Array.prototype.sort()` on an array of strings (default
lexicographic comparator).  A sorted permutation under a total order is
unique as a value list, so insertion sort models it exactly. -/
def jsSortStrs : List String → List String
  | [] => []
  | x :: xs => insertLe x (jsSortStrs xs)

/-- JS `array.map((x, i) => ...)` with the element index. -/
def mapWithIndex (f : Nat → α → β) : Nat → List α → List β
  | _, [] => []
  | i, a :: rest => f i a :: mapWithIndex f (i + 1) rest

/-! ### Slug generator

`slugify = (s) => String(s || '').toLowerCase().replace(/[^a-z0-9]+/g, '-').replace(/^-+|-+$/g, '')`
(ProgramPage variant); the TalkPage variant starts from `String(s)` instead
of `String(s || '')`. -/

/-- The character class kept by the slug regex: `[a-z0-9]`. -/
def isSlugChar (c : Char) : Bool :=
  ('a'.toNat ≤ c.toNat && c.toNat ≤ 'z'.toNat) || ('0'.toNat ≤ c.toNat && c.toNat ≤ '9'.toNat)

/-- `.replace(/[^a-z0-9]+/g, '-')`: every maximal run of characters outside
`[a-z0-9]` becomes a single hyphen.  The boolean records whether the
previous character was part of such a run. -/
def collapseRuns : Bool → List Char → List Char
  | _, [] => []
  | inRun, c :: cs =>
    if isSlugChar c then c :: collapseRuns false cs
    else if inRun then collapseRuns true cs
    else '-' :: collapseRuns true cs

/-- `.replace(/^-+|-+$/g, '')`: strip leading and trailing hyphens. -/
def stripHyphens (l : List Char) : List Char :=
  ((l.dropWhile (· == '-')).reverse.dropWhile (· == '-')).reverse

/-- Core slug computation on an actual string. -/
def slugify (s : String) : String :=
  String.mk (stripHyphens (collapseRuns false (s.data.map Char.toLower)))

/-- The ProgramPage/merge `slugify` variant applied to a possibly
`null`/`undefined` argument: `String(s || '')`. -/
def slugifyPP (s : Option String) : String := slugify (jsOr s "")

/-- The TalkPage/lookup `slugify` variant applied to a `null` argument:
`String(null)` is the string `"null"`. -/
def slugifyTP (s : Option String) : String := slugify (s.getD "null")

/-! ### Data model (input shapes) -/

structure Speaker where
  name : String
  affiliation : String
deriving DecidableEq

/-- A talk inside a structured session record (the JS field `end` is
rendered as `stop`). -/
structure RawTalk where
  title : Option String
  start : Option String
  stop : Option String
  speakers : List Speaker
deriving DecidableEq

/-- A session inside a structured session record. -/
structure RawSession where
  id : Option String
  start : Option String
  stop : Option String
  chair : Option String
  talks : List RawTalk
deriving DecidableEq

/-- One entry of the structured session list (`sessions.js`): either a
`sessions` array or a legacy flat `talks` array with top-level timing. -/
structure SessionRecord where
  minisymposium_title : Option String
  title : Option String
  organizers : List Speaker
  id : Option String
  day : Option String
  room : Option String
  timezone : Option String
  sessions : List RawSession
  start : Option String
  stop : Option String
  chair : Option String
  talks : List RawTalk
deriving DecidableEq

/-- A talk inside an abstract bundle. -/
structure AbsTalk where
  title : Option String
  speakers : List Speaker
  abstract : Option String
  cancelled : Bool
deriving DecidableEq

/-- One per-minisymposium abstract-bundle JSON document. -/
structure AbstractBundle where
  minisymposium_title : Option String
  title : Option String
  organizers : List Speaker
  talks : List AbsTalk
deriving DecidableEq

/-- One parsed row of the contributed-talks CSV.  `ptype` models the
column `Which type of presentation are you submitting?`. -/
structure ContribRow where
  Title : Option String
  FirstName : Option String
  LastName : Option String
  Affiliation : Option String
  Abstract : Option String
  ptype : Option String
deriving DecidableEq

/-! ### Data model (merged output shapes) -/

structure MTalk where
  start : Option String
  stop : Option String
  title : Option String
  speakers : List Speaker
deriving DecidableEq

structure MSession where
  id : String
  start : String
  stop : String
  chair : Option String
  room : Option String
  talks : List MTalk
deriving DecidableEq

structure Mini where
  id : String
  title : String
  organizers : List Speaker
  day : String
  room : Option String
  timezone : String
  sessions : List MSession
deriving DecidableEq

def TEMP_DAY_OVERRIDE : String := "2025-10-11"

def TEMP_SESSION_START : String := "2025-10-11T09:00:00-05:00"

def TEMP_SESSION_END : String := "2025-10-11T10:30:00-05:00"

/-! ### Structured session loader (`fromSessions`) -/

/-- `data.minisymposium_title || data.title` of an abstract bundle
(`undefined` when both are falsy). -/
def bundleTitle (b : AbstractBundle) : Option String :=
  match truthyStr b.minisymposium_title with
  | some t => some t
  | none => truthyStr b.title

/-- The organizer lists of the bundles whose slugified title equals `key`,
in file order. -/
def bundleMatches (bundles : List AbstractBundle) (key : String) : List (List Speaker) :=
  bundles.filterMap (fun b =>
    match bundleTitle b with
    | some t => if slugify t = key then some b.organizers else none
    | none => none)

/-- The `absMeta` organizer map built by `reduce` with object-key
assignment: the *last* bundle whose slugified title equals `key` wins;
`none` when no bundle has that key. -/
def absMetaOrganizers (bundles : List AbstractBundle) (key : String) : Option (List Speaker) :=
  (bundleMatches bundles key).getLast?

/-- `ms.sessions` when it is a non-empty array, otherwise one synthesized
session wrapping the legacy flat shape. -/
def sessionsArrayOf (r : SessionRecord) : List RawSession :=
  match r.sessions with
  | [] => [{ id := none, start := r.start, stop := r.stop, chair := r.chair, talks := r.talks }]
  | s :: rest => s :: rest

/-- `ms.minisymposium_title || ms.title || \`Mini‑Symposium ${i + 1}\``. -/
def recordTitle (i : Nat) (r : SessionRecord) : String :=
  jsOr r.minisymposium_title (jsOr r.title ("Mini‑Symposium " ++ Nat.repr (i + 1)))

/-- `extractDate`: the first ten characters of an ISO string, or `null`. -/
def extractDate (iso : String) : Option String :=
  if 10 ≤ iso.data.length then some (String.mk (iso.data.take 10)) else none

/-- The `sessionDates` list: for each session with a truthy `start`, its
extracted date, then likewise for each of its talks. -/
def recSessionDates (r : SessionRecord) : List (Option String) :=
  (sessionsArrayOf r).flatMap (fun s =>
    (match truthyStr s.start with
     | some st => [extractDate st]
     | none => []) ++
    s.talks.flatMap (fun t =>
      match truthyStr t.start with
      | some st => [extractDate st]
      | none => []))

/-- `validDates = sessionDates.filter(Boolean)`. -/
def recValidDates (r : SessionRecord) : List String :=
  (recSessionDates r).filterMap (fun o =>
    match o with
    | some s => if s = "" then none else some s
    | none => none)

/-- `msDay = validDates.length ? validDates.sort()[0] : null`. -/
def recDay (r : SessionRecord) : Option String :=
  (jsSortStrs (recValidDates r)).head?

/-- The provisional minisymposium id `ms.id || \`MS${i + 1}\``. -/
def provisionalId (i : Nat) (r : SessionRecord) : String :=
  jsOr r.id ("MS" ++ Nat.repr (i + 1))

/-- Normalization of one talk of a structured session. -/
def mkTalk (t : RawTalk) : MTalk :=
  { start := truthyStr t.start
    stop := truthyStr t.stop
    title := t.title
    speakers := t.speakers }

/-- Normalization of one session of a structured record. -/
def mkSession (pid : String) (si : Nat) (s : RawSession) : MSession :=
  { id := jsOr s.id (pid ++ "-S" ++ Nat.repr (si + 1))
    start := jsOr s.start TEMP_SESSION_START
    stop := jsOr s.stop TEMP_SESSION_END
    chair := truthyStr s.chair
    room := none
    talks := s.talks.map mkTalk }

/-- Normalization of one structured session record (`fromSessions` body). -/
def mkFromSession (bundles : List AbstractBundle) (i : Nat) (r : SessionRecord) : Mini :=
  let title := recordTitle i r
  let key := slugify title
  let mergedOrganizers :=
    if r.organizers ≠ [] then r.organizers else (absMetaOrganizers bundles key).getD []
  { id := provisionalId i r
    title := title
    organizers := mergedOrganizers
    day := jsOr (recDay r) TEMP_DAY_OVERRIDE
    room := truthyStr r.room
    timezone := jsOr r.timezone "America/Chicago"
    sessions := mapWithIndex (mkSession (provisionalId i r)) 0 (sessionsArrayOf r) }

def fromSessionsOf (recs : List SessionRecord) (bundles : List AbstractBundle) : List Mini :=
  mapWithIndex (mkFromSession bundles) 0 recs

/-- The set of normalized titles already present in `fromSessions`. -/
def existingTitlesOf (fromSessions : List Mini) : List String :=
  fromSessions.map (fun m => slugify m.title)

/-! ### Abstract-bundle loader (`fromAbstractsOnly`) -/

/-- The standalone minisymposium synthesized from an abstract bundle. -/
def mkAbsMini (msTitle : String) (b : AbstractBundle) : Mini :=
  { id := "MS-" ++ slugify msTitle
    title := msTitle
    organizers := b.organizers
    day := TEMP_DAY_OVERRIDE
    room := none
    timezone := "America/Chicago"
    sessions := [{ id := "MS-" ++ slugify msTitle ++ "-S1"
                   start := TEMP_SESSION_START
                   stop := TEMP_SESSION_END
                   chair := none
                   room := none
                   talks := b.talks.map (fun t =>
                     { start := none, stop := none, title := t.title
                       speakers := t.speakers }) }] }

/-- One abstract bundle becomes a standalone minisymposium exactly when it
has a truthy title whose slug is not among the existing titles. -/
def mkAbsOnly (existingTitles : List String) (b : AbstractBundle) : List Mini :=
  match bundleTitle b with
  | none => []
  | some msTitle =>
    if existingTitles.contains (slugify msTitle) then []
    else [mkAbsMini msTitle b]

def fromAbstractsOnlyOf (bundles : List AbstractBundle) (existingTitles : List String) :
    List Mini :=
  bundles.flatMap (mkAbsOnly existingTitles)

/-! ### Contributed-talk loader -/

/-- `r.Title && r.Title.trim().length > 0`. -/
def rowHasTitle (r : ContribRow) : Bool :=
  match truthyStr r.Title with
  | some t => if jsTrim t = "" then false else true
  | none => false

/-- The parsed CSV rows with a non-blank title. -/
def csvRows (inRows : List ContribRow) : List ContribRow :=
  inRows.filter rowHasTitle

/-- The fixed exclusion list of talk titles already promoted into
minisymposium sessions. -/
def movedTitles : List String :=
  ["Physics-Informed Diffusion Models for Data Augmentation in Metal Additive Manufacturing",
   "Inf-Sup Neural Networks for Solving High-Dimensional PDE Problems",
   "A Generalized Energy-Based Adaptive Gradient Method for Optimization",
   "Fast and Positive fPINNs for Time-Fractional Convection-Diffusion Equations via MFL1 Schemes"
  ].map jsTrim

/-- The fixed exclusion list of speaker names. -/
def movedSpeakers : List String := ["Yingli Li"].map jsTrim

/-- `[r['First Name'], r['Last Name']].filter(Boolean).join(' ').trim()`. -/
def rowName (r : ContribRow) : String :=
  jsTrim (String.intercalate " " ([r.FirstName, r.LastName].filterMap truthyStr))

/-- The contributed-row filter against the promoted-talk exclusion lists. -/
def keepRow (r : ContribRow) : Bool :=
  let title := jsTrim (jsOr r.Title "")
  let name := rowName r
  !(movedTitles.contains title) && !(movedSpeakers.contains name)

def filteredRowsOf (inRows : List ContribRow) : List ContribRow :=
  (csvRows inRows).filter keepRow

/-- The talk built from a contributed row for the merged program: note the
speakers list always holds exactly one entry, even when the joined name is
empty. -/
def ctTalkOfRow (r : ContribRow) : MTalk :=
  { title := r.Title.map jsTrim
    speakers := [{ name := rowName r, affiliation := jsTrim (jsOr r.Affiliation "") }]
    start := none
    stop := none }

/-- The first sixteen contributed talks (`slice(0, 16)`). -/
def ctTalks (inRows : List ContribRow) : List MTalk :=
  ((filteredRowsOf inRows).map ctTalkOfRow).take 16

/-- `slotTimes[0]`: Saturday morning 10:10–11:30. -/
def slotRow0 : List (String × String) :=
  [("2025-10-11T10:10:00-05:00", "2025-10-11T10:30:00-05:00"),
   ("2025-10-11T10:30:00-05:00", "2025-10-11T10:50:00-05:00"),
   ("2025-10-11T10:50:00-05:00", "2025-10-11T11:10:00-05:00"),
   ("2025-10-11T11:10:00-05:00", "2025-10-11T11:30:00-05:00")]

/-- `slotTimes[1]`: Saturday 3:30–4:50 pm (present in the table, unused by
the three contributed-talk groups). -/
def slotRow1 : List (String × String) :=
  [("2025-10-11T15:30:00-05:00", "2025-10-11T15:50:00-05:00"),
   ("2025-10-11T15:50:00-05:00", "2025-10-11T16:10:00-05:00"),
   ("2025-10-11T16:10:00-05:00", "2025-10-11T16:30:00-05:00"),
   ("2025-10-11T16:30:00-05:00", "2025-10-11T16:50:00-05:00")]

/-- `slotTimes[2]`: Saturday 5:00–6:20 pm. -/
def slotRow2 : List (String × String) :=
  [("2025-10-11T17:00:00-05:00", "2025-10-11T17:20:00-05:00"),
   ("2025-10-11T17:20:00-05:00", "2025-10-11T17:40:00-05:00"),
   ("2025-10-11T17:40:00-05:00", "2025-10-11T18:00:00-05:00"),
   ("2025-10-11T18:00:00-05:00", "2025-10-11T18:20:00-05:00")]

/-- `slotTimes[3]`: Sunday 10:10–11:30 am (unused by the groups). -/
def slotRow3 : List (String × String) :=
  [("2025-10-12T10:10:00-05:00", "2025-10-12T10:30:00-05:00"),
   ("2025-10-12T10:30:00-05:00", "2025-10-12T10:50:00-05:00"),
   ("2025-10-12T10:50:00-05:00", "2025-10-12T11:10:00-05:00"),
   ("2025-10-12T11:10:00-05:00", "2025-10-12T11:30:00-05:00")]

/-- `talks.slice(a, b).map((t, j) => ({...t, start: slots[j][0], end: slots[j][1]}))`. -/
def assignSlots (slots : List (String × String)) (talks : List MTalk) : List MTalk :=
  List.zipWith (fun t sl => { t with start := some sl.1, stop := some sl.2 }) talks slots

/-- `.filter((t) => t.title)`. -/
def talkTitleTruthy (t : MTalk) : Bool :=
  match truthyStr t.title with
  | some _ => true
  | none => false

/-- One of the three contributed-talk groups. -/
def mkCT (idStr titleStr roomStr startS endS : String) (slots : List (String × String))
    (talks : List MTalk) : Mini :=
  { id := idStr
    title := titleStr
    organizers := []
    day := "2025-10-11"
    room := some roomStr
    timezone := "America/Chicago"
    sessions := [{ id := idStr ++ "-S1"
                   start := startS
                   stop := endS
                   chair := none
                   room := some roomStr
                   talks := (assignSlots slots talks).filter talkTitleTruthy }] }

/-- The contributed-talk groups, or `null` when the CSV yields no titled
rows or a structured entry already uses the title `Contributed Talks`. -/
def contributedOf (existingTitles : List String) (inRows : List ContribRow) :
    Option (List Mini) :=
  if csvRows inRows = [] then none
  else if existingTitles.contains (slugify "Contributed Talks") then none
  else
    let talks := ctTalks inRows
    some [mkCT "CT1" "Contributed Talks 1" "SCEN 406"
            "2025-10-11T10:10:00-05:00" "2025-10-11T11:30:00-05:00" slotRow0 (talks.take 4),
          mkCT "CT2" "Contributed Talks 2" "SCEN 405"
            "2025-10-11T17:00:00-05:00" "2025-10-11T18:20:00-05:00" slotRow2
            ((talks.drop 4).take 4),
          mkCT "CT3" "Contributed Talks 3" "SCEN 205"
            "2025-10-11T17:00:00-05:00" "2025-10-11T18:20:00-05:00" slotRow2
            ((talks.drop 8).take 4)]

/-! ### Final id assignment and the merger -/

/-- `(ms.title || '').trim().toLowerCase().includes('contributed talks')`. -/
def isContribTitle (t : String) : Bool :=
  includesStr (lowerStr (jsTrim t)) "contributed talks"

/-- `sessions.map((s, si) => ({...s, id: \`${code}-S${si + 1}\`}))`. -/
def reindexSessions (code : String) : Nat → List MSession → List MSession
  | _, [] => []
  | si, s :: rest =>
    { s with id := code ++ "-S" ++ Nat.repr (si + 1) } :: reindexSessions code (si + 1) rest

/-- The sequential code `MS<n>`. -/
def msCode (n : Nat) : String := "MS" ++ Nat.repr n

/-- The final walk over the concatenated list: sequential `MS<n>` codes for
every non-contributed entry, contributed entries keep their ids; every
session id is then recomputed from the final code. -/
def assignCodes : Nat → List Mini → List Mini
  | _, [] => []
  | n, ms :: rest =>
    if isContribTitle ms.title then
      { ms with sessions := reindexSessions ms.id 0 ms.sessions } :: assignCodes n rest
    else
      { ms with id := msCode n
                sessions := reindexSessions (msCode n) 0 ms.sessions } :: assignCodes (n + 1) rest

/-- The program merger: `programData` of `ProgramPage.jsx` as a function of
the three parsed sources. -/
def programData (recs : List SessionRecord) (bundles : List AbstractBundle)
    (inRows : List ContribRow) : List Mini :=
  let fromSessions := fromSessionsOf recs bundles
  let existingTitles := existingTitlesOf fromSessions
  let fromAbstractsOnly := fromAbstractsOnlyOf bundles existingTitles
  let contributed := contributedOf existingTitles inRows
  let combined := fromSessions ++ fromAbstractsOnly ++ contributed.getD []
  assignCodes 1 combined

/-! ### Calendar exporter -/

/-- The per-character effect of `escapeICS`. -/
def escChunk (c : Char) : List Char :=
  if c = ',' then ['\\', ','] else if c = '\n' then ['\\', 'n'] else [c]

/-- `escapeICS`: `String(text).replaceAll(",", "\\,").replaceAll("\n", "\\n")`. -/
def escapeICS (s : String) : String :=
  String.mk (s.data.flatMap escChunk)

/-- A character list is properly escaped for the calendar format: it holds
no raw newline, and every comma is immediately preceded by a backslash. -/
def escOK : List Char → Bool
  | [] => true
  | [c] => !(c == ',' || c == '\n')
  | a :: b :: rest =>
    if a == ',' || a == '\n' then false
    else if a == '\\' && (b == ',' || b == 'n') then escOK rest
    else escOK (b :: rest)

def digitVal (c : Char) : Nat := c.toNat - 48

def twoDigits (a b : Char) : Nat := digitVal a * 10 + digitVal b

def allDigits (l : List Char) : Bool := l.all Char.isDigit

/-- A parsed ISO-8601 timestamp with its numeric offset (minutes east of
UTC), the time representation JS `Date` derives from the data's strings. -/
structure ISOTime where
  year : Int
  month : Int
  day : Int
  hour : Int
  minute : Int
  second : Int
  offsetMin : Int
deriving DecidableEq

/-- Parse the ISO-8601 shapes occurring in the data:
`YYYY-MM-DD`, `YYYY-MM-DDTHH:MM:SS(Z|±hh:mm)`. -/
def parseISO (s : String) : Option ISOTime :=
  match s.data with
  | y1 :: y2 :: y3 :: y4 :: '-' :: m1 :: m2 :: '-' :: d1 :: d2c :: rest =>
    if allDigits [y1, y2, y3, y4, m1, m2, d1, d2c] then
      let y : Int := ((digitVal y1 * 1000 + digitVal y2 * 100 + digitVal y3 * 10 +
        digitVal y4 : Nat) : Int)
      let mo : Int := ((twoDigits m1 m2 : Nat) : Int)
      let da : Int := ((twoDigits d1 d2c : Nat) : Int)
      match rest with
      | [] => some ⟨y, mo, da, 0, 0, 0, 0⟩
      | 'T' :: h1 :: h2 :: ':' :: n1 :: n2 :: ':' :: s1 :: s2 :: tz =>
        if allDigits [h1, h2, n1, n2, s1, s2] then
          let hh : Int := ((twoDigits h1 h2 : Nat) : Int)
          let mi : Int := ((twoDigits n1 n2 : Nat) : Int)
          let ss : Int := ((twoDigits s1 s2 : Nat) : Int)
          match tz with
          | ['Z'] => some ⟨y, mo, da, hh, mi, ss, 0⟩
          | ['+', o1, o2, ':', o3, o4] =>
            if allDigits [o1, o2, o3, o4] then
              some ⟨y, mo, da, hh, mi, ss, ((twoDigits o1 o2 * 60 + twoDigits o3 o4 : Nat) : Int)⟩
            else none
          | ['-', o1, o2, ':', o3, o4] =>
            if allDigits [o1, o2, o3, o4] then
              some ⟨y, mo, da, hh, mi, ss, -((twoDigits o1 o2 * 60 + twoDigits o3 o4 : Nat) : Int)⟩
            else none
          | _ => none
        else none
      | _ => none
    else none
  | _ => none

/-- Days since the epoch of a civil date (standard civil-calendar
conversion, as JS `Date` computes internally). -/
def daysFromCivil (y m d : Int) : Int :=
  let y1 := if m ≤ 2 then y - 1 else y
  let era := Int.ediv (if 0 ≤ y1 then y1 else y1 - 399) 400
  let yoe := y1 - era * 400
  let mp := if 2 < m then m - 3 else m + 9
  let doy := Int.ediv (153 * mp + 2) 5 + d - 1
  let doe := yoe * 365 + Int.ediv yoe 4 - Int.ediv yoe 100 + doy
  era * 146097 + doe - 719468

/-- Civil date from days since the epoch. -/
def civilFromDays (z0 : Int) : Int × Int × Int :=
  let z := z0 + 719468
  let era := Int.ediv (if 0 ≤ z then z else z - 146096) 146097
  let doe := z - era * 146097
  let yoe := Int.ediv (doe - Int.ediv doe 1460 + Int.ediv doe 36524 - Int.ediv doe 146096) 365
  let y := yoe + era * 400
  let doy := doe - (365 * yoe + Int.ediv yoe 4 - Int.ediv yoe 100)
  let mp := Int.ediv (5 * doy + 2) 153
  let d := doy - Int.ediv (153 * mp + 2) 5 + 1
  let m := if mp < 10 then mp + 3 else mp - 9
  (if m ≤ 2 then y + 1 else y, m, d)

/-- The epoch second of a timestamp string, i.e. `new Date(iso).getTime()`
divided by 1000 (`none` for an unparseable string). -/
def epochSecOf (iso : String) : Option Int :=
  (parseISO iso).map (fun t =>
    (daysFromCivil t.year t.month t.day * 1440 + t.hour * 60 + t.minute - t.offsetMin) * 60
      + t.second)

/-- `String(n).padStart(2, "0")` for a small non-negative number. -/
def pad2 (n : Int) : String := if n < 10 then "0" ++ toString n else toString n

/-- Format an epoch second in the UTC Zulu form `YYYYMMDDTHHMMSSZ` used by
`toICSDate` (via `getUTC*`). -/
def icsOfEpochSec (e : Int) : String :=
  let days := Int.ediv e 86400
  let rem := Int.emod e 86400
  let c := civilFromDays days
  toString c.1 ++ pad2 c.2.1 ++ pad2 c.2.2 ++ "T" ++ pad2 (Int.ediv rem 3600) ++
    pad2 (Int.emod (Int.ediv rem 60) 60) ++ pad2 (Int.emod rem 60) ++ "Z"

/-- `toICSDate`: `new Date(null)` is the epoch instant; an unparseable
string is an invalid date, whose `getUTC*` parts all print `NaN`. -/
def toICSDate : Option String → String
  | none => icsOfEpochSec 0
  | some s =>
    match epochSecOf s with
    | some e => icsOfEpochSec e
    | none => "NaNNaNNaNTNaNNaNNaNZ"

/-- `t.speakers?.map((p) => p.name).join(", ")`. -/
def speakerList (t : MTalk) : String :=
  String.intercalate ", " (t.speakers.map (fun p => p.name))

/-- The VEVENT lines of one talk in `createICS`. -/
def talkLinesFull (msRoom : Option String) (uid : String) (ti : Nat) (t : MTalk) :
    List String :=
  ["BEGIN:VEVENT",
   "UID:" ++ uid ++ "-T" ++ Nat.repr ti,
   "SUMMARY:" ++ escapeICS (jsStringU t.title) ++
     (if speakerList t = "" then "" else " — " ++ escapeICS (speakerList t)),
   "DTSTART:" ++ toICSDate t.start,
   "DTEND:" ++ toICSDate t.stop,
   "LOCATION:" ++ escapeICS (jsOr msRoom "TBA"),
   "END:VEVENT"]

/-- The lines contributed by one session (and its talks) in `createICS`;
note the raw, unescaped `ms.title` in the session SUMMARY line. -/
def sessionLinesFull (ms : Mini) (si : Nat) (s : MSession) : List String :=
  ["BEGIN:VEVENT",
   "UID:" ++ ms.id ++ "-S" ++ Nat.repr si ++ "@program",
   "SUMMARY:" ++ ms.title ++ " — Session " ++ Nat.repr (si + 1),
   "DTSTART:" ++ toICSDate (some s.start),
   "DTEND:" ++ toICSDate (some s.stop),
   "LOCATION:" ++ escapeICS (jsOr ms.room "TBA"),
   "DESCRIPTION:Chair: " ++ escapeICS (jsOr s.chair "TBA"),
   "END:VEVENT"] ++
  (mapWithIndex (talkLinesFull ms.room (ms.id ++ "-S" ++ Nat.repr si ++ "@program")) 0
    s.talks).flatten

/-- The line list built by `createICS`. -/
def createICSLines (ms : Mini) : List String :=
  ["BEGIN:VCALENDAR", "VERSION:2.0", "PRODID:-//Conference Program//EN"] ++
  (mapWithIndex (sessionLinesFull ms) 0 ms.sessions).flatten ++
  ["END:VCALENDAR"]

/-- `createICS`: the joined document text. -/
def createICS (ms : Mini) : String := String.intercalate "\r\n" (createICSLines ms)

def minInt? : List Int → Option Int
  | [] => none
  | x :: xs => some (xs.foldl min x)

def maxInt? : List Int → Option Int
  | [] => none
  | x :: xs => some (xs.foldl max x)

/-- The start instants collected by `inferSessionBounds` (session start if
truthy, then each truthy talk start), as parsed epoch seconds. -/
def inferredStarts (s : MSession) : List Int :=
  ((if s.start = "" then [] else [s.start]) ++ s.talks.filterMap (fun t => truthyStr t.start)
    ).filterMap epochSecOf

/-- The end instants collected by `inferSessionBounds`. -/
def inferredEnds (s : MSession) : List Int :=
  ((if s.stop = "" then [] else [s.stop]) ++ s.talks.filterMap (fun t => truthyStr t.stop)
    ).filterMap epochSecOf

/-- The VEVENT lines of one talk in `createICSForSession` (timing and
location lines are conditional there). -/
def talkLinesSession (msRoom : Option String) (sid : String) (ti : Nat) (t : MTalk) :
    List String :=
  ["BEGIN:VEVENT",
   "UID:" ++ sid ++ "-T" ++ Nat.repr ti,
   "SUMMARY:" ++ escapeICS (jsStringU t.title) ++
     (if speakerList t = "" then "" else " — " ++ escapeICS (speakerList t))] ++
  (match truthyStr t.start with
   | some st => ["DTSTART:" ++ toICSDate (some st)]
   | none => []) ++
  (match truthyStr t.stop with
   | some st => ["DTEND:" ++ toICSDate (some st)]
   | none => []) ++
  (match truthyStr msRoom with
   | some r => ["LOCATION:" ++ escapeICS r]
   | none => []) ++
  ["END:VEVENT"]

/-- The line list built by `createICSForSession`; the session SUMMARY again
interpolates `ms.title` unescaped. -/
def createICSForSessionLines (ms : Mini) (s : MSession) (sessionIndex : Nat) : List String :=
  let sid := jsOr (some s.id) (ms.id ++ "-S" ++ Nat.repr (sessionIndex + 1))
  ["BEGIN:VCALENDAR", "VERSION:2.0", "PRODID:-//Conference Program//EN",
   "BEGIN:VEVENT",
   "UID:" ++ sid ++ "@program",
   "SUMMARY:" ++ ms.title ++ " — Session " ++ Nat.repr (sessionIndex + 1)] ++
  (match minInt? (inferredStarts s) with
   | some e => ["DTSTART:" ++ icsOfEpochSec e]
   | none => []) ++
  (match maxInt? (inferredEnds s) with
   | some e => ["DTEND:" ++ icsOfEpochSec e]
   | none => []) ++
  (match truthyStr ms.room with
   | some r => ["LOCATION:" ++ escapeICS r]
   | none => []) ++
  (match truthyStr s.chair with
   | some c => ["DESCRIPTION:Chair: " ++ escapeICS c]
   | none => []) ++
  ["END:VEVENT"] ++
  (mapWithIndex (talkLinesSession ms.room sid) 0 s.talks).flatten ++
  ["END:VCALENDAR"]

/-- `createICSForSession`: the joined document text. -/
def createICSForSession (ms : Mini) (s : MSession) (sessionIndex : Nat) : String :=
  String.intercalate "\r\n" (createICSForSessionLines ms s sessionIndex)

/-! ### Lookup index (`TalkPage`) -/

/-- One entry of the flat talk index built by the talk page. -/
structure TalkEntry where
  msTitle : Option String
  title : Option String
  speakers : List Speaker
  abstract : String
  slug : String
  cancelled : Bool
deriving DecidableEq

/-- The index entries drawn from the abstract bundles. -/
def bundleEntries (bundles : List AbstractBundle) : List TalkEntry :=
  bundles.flatMap (fun b =>
    b.talks.map (fun t =>
      { msTitle := bundleTitle b
        title := t.title
        speakers := t.speakers
        abstract := jsOr t.abstract ""
        slug := slugify (jsStringU t.title)
        cancelled := t.cancelled }))

/-- The lookup-index entry built from one contributed row; a speaker entry
is produced only when the joined name is non-empty. -/
def contribEntryOfRow (r : ContribRow) : Option TalkEntry :=
  let title := jsTrim (jsOr r.Title "")
  if title = "" then none
  else
    some { msTitle := some "Contributed Talks"
           title := some title
           speakers :=
             if rowName r = "" then []
             else [{ name := rowName r, affiliation := jsTrim (jsOr r.Affiliation "") }]
           abstract := jsTrim (jsOr r.Abstract "")
           slug := slugify title
           cancelled := includesStr (jsTrim (jsOr r.ptype "")) "CANCELLED" }

/-- The index entries drawn from the contributed-talks CSV. -/
def contribEntries (inRows : List ContribRow) : List TalkEntry :=
  (csvRows inRows).filterMap contribEntryOfRow

/-- The full flat index: abstract bundles first, contributed talks last. -/
def lookupAll (bundles : List AbstractBundle) (inRows : List ContribRow) : List TalkEntry :=
  bundleEntries bundles ++ contribEntries inRows

/-- `candidates = all.filter((t) => t.slug === slug)`. -/
def lookupCandidates (bundles : List AbstractBundle) (inRows : List ContribRow)
    (slug : String) : List TalkEntry :=
  (lookupAll bundles inRows).filter (fun t => t.slug == slug)

/-- `slugify(t.msTitle || '') === msParam`. -/
def msMatch (m : String) (t : TalkEntry) : Bool := slugify (jsOr t.msTitle "") == m

/-- The talk resolution of the talk page: not-found is the first-class
result `none`. -/
def findTalk (bundles : List AbstractBundle) (inRows : List ContribRow) (slug : String)
    (msParam : Option String) : Option TalkEntry :=
  match lookupCandidates bundles inRows slug, msParam with
  | [], _ => none
  | c :: _, none => some c
  | c :: rest, some m =>
    match (c :: rest).find? (msMatch m) with
    | some t => some t
    | none => some c

/-! ### Spec-side comparison definitions -/

/-- Modelled from the spec: §4.5 says the lookup index draws its
`(minisymposiumTitle, Talk)` pairs from all three sources of §4.2 —
structured session records first, abstract bundles second, contributed
talks last.  The code's index (`lookupAll`) omits the structured session
records; this definition follows the spec's words for comparison. -/
def specLookupPool (recs : List SessionRecord) (bundles : List AbstractBundle)
    (inRows : List ContribRow) : List TalkEntry :=
  (mapWithIndex (fun i r =>
    (sessionsArrayOf r).flatMap (fun s =>
      s.talks.map (fun t =>
        { msTitle := some (recordTitle i r)
          title := t.title
          speakers := t.speakers
          abstract := ""
          slug := slugify (jsStringU t.title)
          cancelled := false }))) 0 recs).flatten ++
  bundleEntries bundles ++ contribEntries inRows

/-- Modelled from the spec: the "UTC date portion" of a timestamp — the
calendar date of that instant in UTC, as `YYYY-MM-DD`. -/
def utcDateOf (iso : String) : Option String :=
  (epochSecOf iso).map (fun e =>
    let c := civilFromDays (Int.ediv e 86400)
    toString c.1 ++ "-" ++ pad2 c.2.1 ++ "-" ++ pad2 c.2.2)

/-! ### Counting helper and concrete data used in the theorems below -/

/-- The number of merged entries whose slugified title equals `k`. -/
def countSlug (k : String) (l : List Mini) : Nat :=
  (l.filter (fun m => slugify m.title == k)).length

def miniDefault : Mini :=
  { id := "", title := "", organizers := [], day := "", room := none, timezone := "",
    sessions := [] }

def msessionDefault : MSession :=
  { id := "", start := "", stop := "", chair := none, room := none, talks := [] }

/-- A structured record with every optional field absent. -/
def emptyRec : SessionRecord :=
  { minisymposium_title := none, title := none, organizers := [], id := none, day := none,
    room := none, timezone := none, sessions := [], start := none, stop := none,
    chair := none, talks := [] }

/-- Two structured records: the first has a title containing
`contributed talks` and therefore keeps its provisional id. -/
def cx1recs : List SessionRecord :=
  [{ emptyRec with minisymposium_title := some "my contributed talks extra" },
   { emptyRec with minisymposium_title := some "X" }]

/-- Two structured records sharing the title `Graph Theory`. -/
def cx3recs : List SessionRecord :=
  [{ emptyRec with minisymposium_title := some "Graph Theory" },
   { emptyRec with minisymposium_title := some "Graph Theory" }]

/-- The Graph Theory scenario: one structured record with two talks and an
empty organizer list. -/
def grecs : List SessionRecord :=
  [{ emptyRec with
      minisymposium_title := some "Graph Theory"
      talks := [{ title := some "Colorings", start := none, stop := none, speakers := [] },
                { title := some "Matchings", start := none, stop := none, speakers := [] }] }]

/-- The Graph Theory abstract bundle with a non-empty organizer list. -/
def gbundle : AbstractBundle :=
  { minisymposium_title := some "Graph Theory", title := none,
    organizers := [{ name := "Alice Doe", affiliation := "U of A" }],
    talks := [{ title := some "Colorings", speakers := [], abstract := some "a1",
                cancelled := false },
              { title := some "Matchings", speakers := [], abstract := some "a2",
                cancelled := false }] }

/-- A record whose only timestamp is late in the evening of Oct 11 in the
`-05:00` offset — that instant falls on Oct 12 in UTC. -/
def cx5rec : SessionRecord :=
  { emptyRec with
      minisymposium_title := some "Evening MS"
      sessions := [{ id := none, start := some "2025-10-11T23:30:00-05:00", stop := none,
                     chair := none, talks := [] }] }

/-- A record with two timestamped starts on different days. -/
def w5rec : SessionRecord :=
  { emptyRec with
      minisymposium_title := some "Two Days"
      sessions := [{ id := none, start := some "2025-10-12T09:00:00-05:00", stop := none,
                     chair := none,
                     talks := [{ title := some "Early", start := some "2025-10-11T10:00:00-05:00",
                                 stop := none, speakers := [] }] }] }

/-- A structured record containing the only occurrence of `Unique Talk`. -/
def cx8recs : List SessionRecord :=
  [{ emptyRec with
      minisymposium_title := some "Only Structured"
      talks := [{ title := some "Unique Talk", start := none, stop := none, speakers := [] }] }]

/-- Two abstract bundles, each with a talk titled `TBD`. -/
def w8bundles : List AbstractBundle :=
  [{ minisymposium_title := some "MS Alpha", title := none, organizers := [],
     talks := [{ title := some "TBD", speakers := [], abstract := some "alpha abstract",
                 cancelled := false }] },
   { minisymposium_title := some "MS Beta", title := none, organizers := [],
     talks := [{ title := some "TBD", speakers := [], abstract := some "beta abstract",
                 cancelled := false }] }]

/-- The first candidate (source-enumeration order) of the `TBD` collision. -/
def w8first : TalkEntry :=
  { msTitle := some "MS Alpha", title := some "TBD", speakers := [],
    abstract := "alpha abstract", slug := "tbd", cancelled := false }

/-- A talk whose title contains a comma. -/
def cx9talk : MTalk :=
  { start := some "2025-10-11T10:10:00-05:00", stop := some "2025-10-11T10:30:00-05:00",
    title := some "A talk, with comma",
    speakers := [{ name := "Jo Doe", affiliation := "U" }] }

/-- A session whose chair contains a comma. -/
def cx9session : MSession :=
  { id := "MS1-S1", start := "2025-10-11T10:10:00-05:00",
    stop := "2025-10-11T11:30:00-05:00", chair := some "Ann, Bob", room := none,
    talks := [cx9talk] }

/-- A minisymposium whose title contains a comma, with one session and one
talk, as exported to the calendar document. -/
def cx9ms : Mini :=
  { id := "MS1", title := "Graphs, Games", organizers := [], day := "2025-10-11",
    room := some "SCEN 406", timezone := "America/Chicago",
    sessions := [cx9session] }

/-- A contributed row whose first and last names are both empty. -/
def cx10row : ContribRow :=
  { Title := some "Foo", FirstName := some "", LastName := some "",
    Affiliation := some "A", Abstract := none, ptype := none }

/-- Two adjacent characters are not both hyphens. -/
def hyphensApart (a b : Char) : Prop := ¬(a = '-' ∧ b = '-')

/-! ## Properties of the slug generator -/

theorem isSlugChar_toLower_fixed (c : Char) (h : isSlugChar c = true) : Char.toLower c = c := by
  have ha : 'a'.toNat = 97 := rfl
  have hz : 'z'.toNat = 122 := rfl
  have h0 : '0'.toNat = 48 := rfl
  have h9 : '9'.toNat = 57 := rfl
  simp only [isSlugChar, ha, hz, h0, h9, Bool.or_eq_true, Bool.and_eq_true,
    decide_eq_true_eq] at h
  have hno : ¬(c.toNat ≥ 65 ∧ c.toNat ≤ 90) := by omega
  simp [Char.toLower, hno]

theorem mem_collapseRuns (l : List Char) (b : Bool) (c : Char) (hc : c ∈ collapseRuns b l) :
    isSlugChar c = true ∨ c = '-' := by
  induction l generalizing b with
  | nil => simp [collapseRuns] at hc
  | cons d rest ih =>
    by_cases hd : isSlugChar d = true
    · simp only [collapseRuns, hd, if_true, List.mem_cons] at hc
      rcases hc with hc | hc
      · exact Or.inl (hc ▸ hd)
      · exact ih false hc
    · cases b with
      | true =>
        simp only [collapseRuns, hd, if_false, Bool.false_eq_true] at hc
        exact ih true hc
      | false =>
        simp only [collapseRuns, hd, if_false, Bool.false_eq_true, List.mem_cons] at hc
        rcases hc with hc | hc
        · exact Or.inr hc
        · exact ih true hc

theorem head_collapseRuns_true (l : List Char) (c : Char)
    (h : (collapseRuns true l).head? = some c) : isSlugChar c = true := by
  induction l with
  | nil => simp [collapseRuns] at h
  | cons d rest ih =>
    by_cases hd : isSlugChar d = true
    · simp only [collapseRuns, hd, if_true, List.head?_cons, Option.some.injEq] at h
      exact h ▸ hd
    · simp only [collapseRuns, hd, if_false, Bool.false_eq_true] at h
      exact ih h

theorem chain_collapseRuns (l : List Char) (b : Bool) :
    List.Chain' hyphensApart (collapseRuns b l) := by
  induction l generalizing b with
  | nil => simp [collapseRuns]
  | cons d rest ih =>
    by_cases hd : isSlugChar d = true
    · simp only [collapseRuns, hd, if_true]
      rw [List.chain'_cons']
      refine ⟨fun y _ => ?_, ih false⟩
      intro hpair
      rw [hpair.1] at hd
      exact absurd hd (by decide)
    · cases b with
      | true =>
        simp only [collapseRuns, hd, if_false, Bool.false_eq_true]
        exact ih true
      | false =>
        simp only [collapseRuns, hd, if_false, Bool.false_eq_true]
        rw [List.chain'_cons']
        refine ⟨fun y hy => ?_, ih true⟩
        intro hpair
        have := head_collapseRuns_true rest y hy
        rw [hpair.2] at this
        exact absurd this (by decide)

theorem head?_dropHyphens (l : List Char) (c : Char)
    (h : (l.dropWhile (· == '-')).head? = some c) : c ≠ '-' := by
  induction l with
  | nil => simp at h
  | cons d rest ih =>
    by_cases hd : d = '-'
    · rw [List.dropWhile_cons, if_pos (by simp [hd])] at h
      exact ih h
    · rw [List.dropWhile_cons, if_neg (by simp [hd])] at h
      simp only [List.head?_cons, Option.some.injEq] at h
      exact h ▸ hd

theorem getLast?_dropWhile_ne_nil (p : Char → Bool) (l : List Char)
    (hne : l.dropWhile p ≠ []) : (l.dropWhile p).getLast? = l.getLast? := by
  induction l with
  | nil => simp at hne
  | cons d rest ih =>
    by_cases hd : p d = true
    · rw [List.dropWhile_cons, if_pos hd] at hne ⊢
      have hrest : rest ≠ [] := by
        intro h
        rw [h] at hne
        simp at hne
      rw [ih hne]
      cases rest with
      | nil => exact absurd rfl hrest
      | cons e t => rw [List.getLast?_cons_cons]
    · rw [List.dropWhile_cons, if_neg hd]

theorem dropWhileHyphens_id (l : List Char)
    (h : ∀ c, l.head? = some c → c ≠ '-') : l.dropWhile (· == '-') = l := by
  cases l with
  | nil => rfl
  | cons d rest =>
    have hd : d ≠ '-' := h d rfl
    rw [List.dropWhile_cons, if_neg (by simp [hd])]

theorem stripHyphens_id (l : List Char)
    (hhead : ∀ c, l.head? = some c → c ≠ '-')
    (hlast : ∀ c, l.getLast? = some c → c ≠ '-') : stripHyphens l = l := by
  unfold stripHyphens
  rw [dropWhileHyphens_id l hhead]
  rw [dropWhileHyphens_id l.reverse (fun c hc => hlast c (by rwa [List.head?_reverse] at hc))]
  exact List.reverse_reverse l

theorem mem_stripHyphens (l : List Char) (c : Char) (hc : c ∈ stripHyphens l) : c ∈ l := by
  unfold stripHyphens at hc
  rw [List.mem_reverse] at hc
  have h1 := (List.dropWhile_sublist (l := (l.dropWhile (· == '-')).reverse)
    (· == '-')).mem hc
  rw [List.mem_reverse] at h1
  exact (List.dropWhile_sublist (· == '-')).mem h1

theorem head?_stripHyphens (l : List Char) (c : Char)
    (h : (stripHyphens l).head? = some c) : c ≠ '-' := by
  unfold stripHyphens at h
  rw [List.head?_reverse] at h
  by_cases hne : (l.dropWhile (· == '-')).reverse.dropWhile (· == '-') = []
  · rw [hne] at h
    simp at h
  · rw [getLast?_dropWhile_ne_nil _ _ hne, List.getLast?_reverse] at h
    exact head?_dropHyphens l c h

theorem getLast?_stripHyphens (l : List Char) (c : Char)
    (h : (stripHyphens l).getLast? = some c) : c ≠ '-' := by
  unfold stripHyphens at h
  rw [List.getLast?_reverse] at h
  exact head?_dropHyphens _ c h

theorem chain_stripHyphens (l : List Char) (h : List.Chain' hyphensApart l) :
    List.Chain' hyphensApart (stripHyphens l) := by
  have hsymm : ∀ a b : Char, flip hyphensApart a b → hyphensApart a b := by
    intro a b hab hcontra
    exact hab ⟨hcontra.2, hcontra.1⟩
  have h1 : List.Chain' hyphensApart (l.dropWhile (· == '-')) :=
    h.suffix (List.dropWhile_suffix _)
  have h2 : List.Chain' hyphensApart (l.dropWhile (· == '-')).reverse :=
    (List.chain'_reverse.mpr (h1.imp (fun a b hab hc => hab ⟨hc.2, hc.1⟩)))
  have h3 : List.Chain' hyphensApart ((l.dropWhile (· == '-')).reverse.dropWhile (· == '-')) :=
    h2.suffix (List.dropWhile_suffix _)
  exact List.chain'_reverse.mpr (h3.imp (fun a b hab hc => hab ⟨hc.2, hc.1⟩))

theorem slugify_data (s : String) :
    (slugify s).data = stripHyphens (collapseRuns false (s.data.map Char.toLower)) := rfl

theorem slugify_mem_alphabet (s : String) (c : Char) (hc : c ∈ (slugify s).data) :
    isSlugChar c = true ∨ c = '-' := by
  rw [slugify_data] at hc
  exact mem_collapseRuns _ false c (mem_stripHyphens _ c hc)

theorem slugify_head_not_hyphen (s : String) (c : Char)
    (h : (slugify s).data.head? = some c) : c ≠ '-' := by
  rw [slugify_data] at h
  exact head?_stripHyphens _ c h

theorem slugify_last_not_hyphen (s : String) (c : Char)
    (h : (slugify s).data.getLast? = some c) : c ≠ '-' := by
  rw [slugify_data] at h
  exact getLast?_stripHyphens _ c h

theorem slugify_chain (s : String) : List.Chain' hyphensApart (slugify s).data := by
  rw [slugify_data]
  exact chain_stripHyphens _ (chain_collapseRuns _ false)

theorem map_toLower_id (l : List Char) (h : ∀ c ∈ l, isSlugChar c = true ∨ c = '-') :
    l.map Char.toLower = l := by
  induction l with
  | nil => rfl
  | cons d rest ih =>
    have hd : Char.toLower d = d := by
      rcases h d (List.mem_cons_self _ _) with hd | hd
      · exact isSlugChar_toLower_fixed d hd
      · rw [hd]; decide
    simp only [List.map_cons, hd, List.cons.injEq, true_and]
    exact ih (fun c hc => h c (List.mem_cons_of_mem _ hc))

theorem collapseRuns_fixed (l : List Char)
    (halpha : ∀ c ∈ l, isSlugChar c = true ∨ c = '-')
    (hchain : List.Chain' hyphensApart l) :
    (l.head? = some '-' → collapseRuns false l = l) ∧
    (l.head? ≠ some '-' → ∀ b, collapseRuns b l = l) := by
  induction l with
  | nil =>
    constructor
    · intro h; simp at h
    · intro _ b; rfl
  | cons d rest ih =>
    have hrestalpha : ∀ c ∈ rest, isSlugChar c = true ∨ c = '-' :=
      fun c hc => halpha c (List.mem_cons_of_mem _ hc)
    have IH := ih hrestalpha hchain.tail
    constructor
    · intro hd
      have hd' : d = '-' := by
        simp only [List.head?_cons, Option.some.injEq] at hd
        exact hd
      subst hd'
      have hslug : ¬isSlugChar '-' = true := by decide
      simp only [collapseRuns, hslug, if_false, Bool.false_eq_true, List.cons.injEq, true_and]
      cases rest with
      | nil => rfl
      | cons e rest2 =>
        have he : e ≠ '-' := by
          have hr := List.chain'_cons.mp hchain
          intro he'
          exact hr.1 ⟨rfl, he'⟩
        exact IH.2 (by simp [he]) true
    · intro hd b
      have hd' : d ≠ '-' := by
        intro h
        exact hd (by simp [h])
      have hdslug : isSlugChar d = true := by
        rcases halpha d (List.mem_cons_self _ _) with h | h
        · exact h
        · exact absurd h hd'
      simp only [collapseRuns, hdslug, if_true, List.cons.injEq, true_and]
      by_cases hr : rest.head? = some '-'
      · exact IH.1 hr
      · exact IH.2 hr false

theorem slugify_idempotent (s : String) : slugify (slugify s) = slugify s := by
  have halpha := slugify_mem_alphabet s
  have hchain := slugify_chain s
  have hhead : (slugify s).data.head? ≠ some '-' := by
    intro h
    exact slugify_head_not_hyphen s '-' h rfl
  show String.mk (stripHyphens (collapseRuns false ((slugify s).data.map Char.toLower)))
    = slugify s
  rw [map_toLower_id _ halpha]
  rw [(collapseRuns_fixed _ halpha hchain).2 hhead false]
  rw [stripHyphens_id _ (slugify_head_not_hyphen s) (slugify_last_not_hyphen s)]

/-- C6: `slugify` is total and idempotent — its output contains only
lowercase letters, digits and hyphens, has no leading or trailing hyphen,
has no two adjacent hyphens, and applying `slugify` again is the
identity. -/
theorem C6_slugify_total_idempotent (s : String) :
    (∀ c ∈ (slugify s).data, isSlugChar c = true ∨ c = '-') ∧
    (∀ c, (slugify s).data.head? = some c → c ≠ '-') ∧
    (∀ c, (slugify s).data.getLast? = some c → c ≠ '-') ∧
    List.Chain' hyphensApart (slugify s).data ∧
    slugify (slugify s) = slugify s :=
  ⟨slugify_mem_alphabet s, slugify_head_not_hyphen s, slugify_last_not_hyphen s,
   slugify_chain s, slugify_idempotent s⟩

theorem C6_witness :
    slugify (slugify "A BKM-type criterion!") = slugify "A BKM-type criterion!" ∧
    (isSlugChar 'a' = true ∨ 'a' = '-') :=
  ⟨(C6_slugify_total_idempotent "A BKM-type criterion!").2.2.2.2,
   (C6_slugify_total_idempotent "A BKM-type criterion!").1 'a' (by decide)⟩

/-- C7 fails as stated: the TalkPage `slugify` variant computes
`String(null) = "null"`, so applied to `null` it yields the string
`"null"`, not the empty string. -/
theorem C7_counterexample : slugifyTP none = "null" ∧ slugifyTP none ≠ "" := by
  constructor
  · decide
  · decide

/-- C7 (amended): on the empty string both variants yield the empty string,
and on `null` the ProgramPage variant yields the empty string while the
TalkPage variant yields `"null"`. -/
theorem C7_amended_degenerate :
    slugifyPP none = "" ∧ slugifyPP (some "") = "" ∧
    slugifyTP (some "") = "" ∧ slugifyTP none = "null" := by
  refine ⟨by decide, by decide, by decide, by decide⟩

/-! ## Properties of the calendar escaping -/

theorem escOK_cons_of_ne (c : Char) (x : List Char) (hc1 : c ≠ ',') (hc2 : c ≠ '\n')
    (hc3 : c ≠ '\\') (hx : escOK x = true) : escOK (c :: x) = true := by
  cases x with
  | nil => simp [escOK, hc1, hc2]
  | cons b r =>
    have h1 : (c == ',' || c == '\n') = false := by simp [hc1, hc2]
    have h2 : (c == '\\' && (b == ',' || b == 'n')) = false := by simp [hc3]
    simp only [escOK, h1, h2, Bool.false_eq_true, if_false]
    exact hx

theorem escOK_escChunks (cs : List Char) :
    escOK (cs.flatMap escChunk) = true ∧ escOK ('\\' :: cs.flatMap escChunk) = true := by
  induction cs with
  | nil => exact ⟨rfl, by decide⟩
  | cons c cs' ih =>
    have hflat : (c :: cs').flatMap escChunk = escChunk c ++ cs'.flatMap escChunk :=
      List.flatMap_cons c cs' escChunk
    by_cases h1 : c = ','
    · subst h1
      rw [hflat]
      have r1 : ∀ l : List Char, escOK ('\\' :: ',' :: l) = escOK l := fun _ => rfl
      have r2 : ∀ l : List Char, escOK ('\\' :: '\\' :: ',' :: l) = escOK ('\\' :: ',' :: l) :=
        fun _ => rfl
      constructor
      · show escOK ('\\' :: ',' :: cs'.flatMap escChunk) = true
        rw [r1]; exact ih.1
      · show escOK ('\\' :: '\\' :: ',' :: cs'.flatMap escChunk) = true
        rw [r2, r1]; exact ih.1
    · by_cases h2 : c = '\n'
      · subst h2
        rw [hflat]
        have r1 : ∀ l : List Char, escOK ('\\' :: 'n' :: l) = escOK l := fun _ => rfl
        have r2 : ∀ l : List Char, escOK ('\\' :: '\\' :: 'n' :: l) = escOK ('\\' :: 'n' :: l) :=
          fun _ => rfl
        constructor
        · show escOK ('\\' :: 'n' :: cs'.flatMap escChunk) = true
          rw [r1]; exact ih.1
        · show escOK ('\\' :: '\\' :: 'n' :: cs'.flatMap escChunk) = true
          rw [r2, r1]; exact ih.1
      · by_cases h3 : c = '\\'
        · subst h3
          rw [hflat]
          have r2 : ∀ l : List Char, escOK ('\\' :: '\\' :: l) = escOK ('\\' :: l) :=
            fun _ => rfl
          constructor
          · show escOK ('\\' :: cs'.flatMap escChunk) = true
            exact ih.2
          · show escOK ('\\' :: '\\' :: cs'.flatMap escChunk) = true
            rw [r2]; exact ih.2
        · have hchunk : escChunk c = [c] := by simp [escChunk, h1, h2]
          rw [hflat, hchunk]
          by_cases h4 : c = 'n'
          · subst h4
            have r1 : ∀ l : List Char, escOK ('\\' :: 'n' :: l) = escOK l := fun _ => rfl
            constructor
            · show escOK ('n' :: cs'.flatMap escChunk) = true
              exact escOK_cons_of_ne 'n' _ (by decide) (by decide) (by decide) ih.1
            · show escOK ('\\' :: 'n' :: cs'.flatMap escChunk) = true
              rw [r1]; exact ih.1
          · constructor
            · show escOK (c :: cs'.flatMap escChunk) = true
              exact escOK_cons_of_ne c _ h1 h2 h3 ih.1
            · show escOK ('\\' :: c :: cs'.flatMap escChunk) = true
              have ha : (('\\' : Char) == ',' || ('\\' : Char) == '\n') = false := by decide
              have hb : (('\\' : Char) == '\\' && (c == ',' || c == 'n')) = false := by
                simp [h1, h4]
              simp only [escOK, ha, hb, Bool.false_eq_true, if_false]
              exact escOK_cons_of_ne c _ h1 h2 h3 ih.1

/-- Every `escapeICS` output is properly escaped. -/
theorem escOK_escapeICS (s : String) : escOK (escapeICS s).data = true :=
  (escOK_escChunks s.data).1

/-! ## Indexed-map and membership machinery -/

theorem mapWithIndex_get? (f : Nat → α → β) (k : Nat) (l : List α) (i : Nat) :
    (mapWithIndex f k l).get? i = (l.get? i).map (f (k + i)) := by
  induction l generalizing k i with
  | nil => simp [mapWithIndex]
  | cons a rest ih =>
    cases i with
    | zero => simp [mapWithIndex]
    | succ j =>
      simp only [mapWithIndex, List.get?_cons_succ]
      rw [ih (k + 1) j]
      have harith : k + 1 + j = k + (j + 1) := by omega
      rw [harith]

theorem mapWithIndex_length (f : Nat → α → β) (k : Nat) (l : List α) :
    (mapWithIndex f k l).length = l.length := by
  induction l generalizing k with
  | nil => rfl
  | cons a rest ih => simp [mapWithIndex, ih]

theorem mem_flatten_of_mapWithIndex (f : Nat → α → List β) (l : List α) (i : Nat) (a : α)
    (hi : l.get? i = some a) (x : β) (hx : x ∈ f i a) :
    x ∈ (mapWithIndex f 0 l).flatten := by
  rw [List.mem_flatten]
  refine ⟨f i a, ?_, hx⟩
  apply List.get?_mem (n := i)
  rw [mapWithIndex_get? f 0 l i, hi]
  simp

theorem mem_createICSLines_of_session (ms : Mini) (si : Nat) (s : MSession)
    (hs : ms.sessions.get? si = some s) (x : String) (hx : x ∈ sessionLinesFull ms si s) :
    x ∈ createICSLines ms := by
  unfold createICSLines
  refine List.mem_append_left _ (List.mem_append_right _ ?_)
  exact mem_flatten_of_mapWithIndex _ _ si s hs x hx

theorem mem_sessionLinesFull_of_talk (ms : Mini) (si : Nat) (s : MSession) (ti : Nat)
    (t : MTalk) (ht : s.talks.get? ti = some t) (x : String)
    (hx : x ∈ talkLinesFull ms.room (ms.id ++ "-S" ++ Nat.repr si ++ "@program") ti t) :
    x ∈ sessionLinesFull ms si s := by
  unfold sessionLinesFull
  refine List.mem_append_right _ ?_
  exact mem_flatten_of_mapWithIndex _ _ ti t ht x hx

/-- C9 fails as stated: in the session-event SUMMARY line the minisymposium
title is interpolated raw, so a title containing a comma reaches the
exported document unescaped (the escaped form is absent). -/
theorem C9_counterexample :
    ("SUMMARY:Graphs, Games — Session 1") ∈ createICSLines cx9ms ∧
    escapeICS "Graphs, Games" = "Graphs\\, Games" ∧
    ("SUMMARY:" ++ escapeICS "Graphs, Games" ++ " — Session 1") ∉ createICSLines cx9ms ∧
    escOK ("SUMMARY:Graphs, Games — Session 1").data = false := by
  refine ⟨by decide, by decide, by decide, by decide⟩

/-- C9 (amended): every free-text field of the calendar export except the
minisymposium title in session-event SUMMARY lines — talk titles, joined
speaker-name lists, room, and chair — is passed through `escapeICS`, whose
output never contains a raw newline and only backslash-escaped commas;
the session SUMMARY line interpolates the raw title. -/
theorem C9_amended_escaping (ms : Mini) (si : Nat) (s : MSession)
    (hs : ms.sessions.get? si = some s) :
    escOK (escapeICS (jsOr ms.room "TBA")).data = true ∧
    escOK (escapeICS (jsOr s.chair "TBA")).data = true ∧
    ("LOCATION:" ++ escapeICS (jsOr ms.room "TBA")) ∈ createICSLines ms ∧
    ("DESCRIPTION:Chair: " ++ escapeICS (jsOr s.chair "TBA")) ∈ createICSLines ms ∧
    ("SUMMARY:" ++ ms.title ++ " — Session " ++ Nat.repr (si + 1)) ∈ createICSLines ms ∧
    ("SUMMARY:" ++ ms.title ++ " — Session " ++ Nat.repr (si + 1)) ∈
      createICSForSessionLines ms s si ∧
    (∀ ti t, s.talks.get? ti = some t →
      escOK (escapeICS (jsStringU t.title)).data = true ∧
      escOK (escapeICS (speakerList t)).data = true ∧
      ("SUMMARY:" ++ escapeICS (jsStringU t.title) ++
        (if speakerList t = "" then "" else " — " ++ escapeICS (speakerList t)))
        ∈ createICSLines ms) := by
  refine ⟨escOK_escapeICS _, escOK_escapeICS _, ?_, ?_, ?_, ?_, ?_⟩
  · exact mem_createICSLines_of_session ms si s hs _ (by simp [sessionLinesFull])
  · exact mem_createICSLines_of_session ms si s hs _ (by simp [sessionLinesFull])
  · exact mem_createICSLines_of_session ms si s hs _ (by simp [sessionLinesFull])
  · simp [createICSForSessionLines]
  · intro ti t ht
    refine ⟨escOK_escapeICS _, escOK_escapeICS _, ?_⟩
    apply mem_createICSLines_of_session ms si s hs
    apply mem_sessionLinesFull_of_talk ms si s ti t ht
    simp [talkLinesFull]

theorem C9_witness :
    ("LOCATION:" ++ escapeICS (jsOr cx9ms.room "TBA")) ∈ createICSLines cx9ms ∧
    escOK (escapeICS (jsStringU cx9talk.title)).data = true := by
  have h := C9_amended_escaping cx9ms 0 cx9session (by decide)
  have h2 := h.2.2.2.2.2.2 0 cx9talk (by decide)
  exact ⟨h.2.2.1, h2.1⟩

/-! ## Lexicographic order and the sorted-minimum -/

theorem lexLe_refl (l : List Char) : lexLe l l = true := by
  induction l with
  | nil => rfl
  | cons a as ih => simp [lexLe, ih]

theorem lexLe_total (l1 l2 : List Char) : lexLe l1 l2 = true ∨ lexLe l2 l1 = true := by
  induction l1 generalizing l2 with
  | nil => exact Or.inl rfl
  | cons a as ih =>
    cases l2 with
    | nil => exact Or.inr rfl
    | cons b bs =>
      by_cases hab : a = b
      · subst hab
        simp only [lexLe, beq_self_eq_true, if_true]
        exact ih bs
      · rcases lt_or_gt_of_ne hab with h | h
        · exact Or.inl (by simp [lexLe, hab, h])
        · refine Or.inr (by simp [lexLe, Ne.symm hab, h])

theorem lexLe_trans (l1 l2 l3 : List Char) (h12 : lexLe l1 l2 = true)
    (h23 : lexLe l2 l3 = true) : lexLe l1 l3 = true := by
  induction l1 generalizing l2 l3 with
  | nil => rfl
  | cons a as ih =>
    cases l2 with
    | nil => simp [lexLe] at h12
    | cons b bs =>
      cases l3 with
      | nil => simp [lexLe] at h23
      | cons c cs =>
        simp only [lexLe, beq_iff_eq] at h12 h23 ⊢
        by_cases hab : a = b
        · rw [if_pos hab] at h12
          by_cases hbc : b = c
          · rw [if_pos hbc] at h23
            rw [if_pos (hab.trans hbc)]
            exact ih bs cs h12 h23
          · rw [if_neg hbc] at h23
            have hac : a ≠ c := fun h => hbc (hab.symm.trans h)
            rw [if_neg hac, hab]
            exact h23
        · rw [if_neg hab, decide_eq_true_eq] at h12
          by_cases hbc : b = c
          · have hac : a ≠ c := by
              rw [← hbc]
              exact ne_of_lt h12
            rw [if_neg hac, decide_eq_true_eq, ← hbc]
            exact h12
          · rw [if_neg hbc, decide_eq_true_eq] at h23
            have hac2 : a < c := lt_trans h12 h23
            rw [if_neg (ne_of_lt hac2), decide_eq_true_eq]
            exact hac2

theorem mem_insertLe (x y : String) (l : List String) :
    y ∈ insertLe x l ↔ y = x ∨ y ∈ l := by
  induction l with
  | nil => simp [insertLe]
  | cons z zs ih =>
    by_cases h : lexLe x.data z.data = true
    · rw [insertLe, if_pos h]
      simp only [List.mem_cons]
    · rw [insertLe, if_neg h]
      simp only [List.mem_cons, ih]
      tauto

theorem mem_jsSortStrs (y : String) (l : List String) : y ∈ jsSortStrs l ↔ y ∈ l := by
  induction l with
  | nil => simp [jsSortStrs]
  | cons z zs ih =>
    simp only [jsSortStrs, mem_insertLe, List.mem_cons, ih]

theorem pairwise_insertLe (x : String) (l : List String)
    (h : List.Pairwise (fun a b => lexLe a.data b.data = true) l) :
    List.Pairwise (fun a b => lexLe a.data b.data = true) (insertLe x l) := by
  induction l with
  | nil => simp [insertLe]
  | cons y ys ih =>
    by_cases hxy : lexLe x.data y.data = true
    · rw [insertLe, if_pos hxy, List.pairwise_cons]
      refine ⟨?_, h⟩
      intro z hz
      rcases List.mem_cons.mp hz with hz | hz
      · exact hz ▸ hxy
      · exact lexLe_trans _ _ _ hxy (List.rel_of_pairwise_cons h hz)
    · rw [insertLe, if_neg hxy, List.pairwise_cons]
      constructor
      · intro z hz
        rcases (mem_insertLe x z ys).mp hz with hz | hz
        · rw [hz]
          have htot := lexLe_total x.data y.data
          rcases htot with htot | htot
          · exact absurd htot hxy
          · exact htot
        · exact List.rel_of_pairwise_cons h hz
      · exact ih (List.Pairwise.of_cons h)


theorem pairwise_jsSortStrs (l : List String) :
    List.Pairwise (fun a b => lexLe a.data b.data = true) (jsSortStrs l) := by
  induction l with
  | nil => simp [jsSortStrs]
  | cons z zs ih => exact pairwise_insertLe z (jsSortStrs zs) ih

theorem head_jsSortStrs_min (l : List String) (d : String)
    (hd : (jsSortStrs l).head? = some d) :
    d ∈ l ∧ ∀ x ∈ l, lexLe d.data x.data = true := by
  cases hsort : jsSortStrs l with
  | nil => rw [hsort] at hd; simp at hd
  | cons a rest =>
    rw [hsort] at hd
    simp only [List.head?_cons, Option.some.injEq] at hd
    subst hd
    constructor
    · rw [← mem_jsSortStrs, hsort]
      exact List.mem_cons_self _ _
    · intro x hx
      rw [← mem_jsSortStrs x l, hsort] at hx
      rcases List.mem_cons.mp hx with hx | hx
      · subst hx
        exact lexLe_refl _
      · have pw := pairwise_jsSortStrs l
        rw [hsort] at pw
        exact List.rel_of_pairwise_cons pw hx

/-! ## Structure of the final id assignment -/

theorem reindexSessions_get? (code : String) (k : Nat) (ss : List MSession) (i : Nat) :
    (reindexSessions code k ss).get? i =
      (ss.get? i).map (fun s => { s with id := code ++ "-S" ++ Nat.repr (k + i + 1) }) := by
  induction ss generalizing k i with
  | nil => simp [reindexSessions]
  | cons s rest ih =>
    cases i with
    | zero => simp [reindexSessions]
    | succ j =>
      simp only [reindexSessions, List.get?_cons_succ]
      rw [ih (k + 1) j]
      have harith : k + 1 + j = k + (j + 1) := by omega
      rw [harith]

theorem assignCodes_mem (n : Nat) (l : List Mini) (m : Mini) (hm : m ∈ assignCodes n l) :
    ∃ ss : List MSession, m.sessions = reindexSessions m.id 0 ss := by
  induction l generalizing n with
  | nil => simp [assignCodes] at hm
  | cons ms rest ih =>
    by_cases hc : isContribTitle ms.title = true
    · simp only [assignCodes, hc, if_true, List.mem_cons] at hm
      rcases hm with hm | hm
      · exact ⟨ms.sessions, by rw [hm]⟩
      · exact ih n hm
    · simp only [assignCodes, hc, if_false, Bool.false_eq_true, List.mem_cons] at hm
      rcases hm with hm | hm
      · exact ⟨ms.sessions, by rw [hm]⟩
      · exact ih (n + 1) hm

/-- C2: after the merge completes, every session id equals the parent
minisymposium's *final* id followed by `-S` and the session's 1-based index
within that minisymposium; no session id is derived from a provisional
pre-final id, since the final pass recomputes all of them. -/
theorem C2_session_ids (recs : List SessionRecord) (bundles : List AbstractBundle)
    (inRows : List ContribRow) (m : Mini) (hm : m ∈ programData recs bundles inRows)
    (i : Nat) (s : MSession) (hs : m.sessions.get? i = some s) :
    s.id = m.id ++ "-S" ++ Nat.repr (i + 1) := by
  obtain ⟨ss, hss⟩ := assignCodes_mem 1 _ m hm
  rw [hss, reindexSessions_get? m.id 0 ss i] at hs
  cases hget : ss.get? i with
  | none =>
    rw [hget] at hs
    simp at hs
  | some s0 =>
    rw [hget] at hs
    simp only [Option.map_some', Option.some.injEq] at hs
    rw [← hs]
    show m.id ++ "-S" ++ Nat.repr (0 + i + 1) = m.id ++ "-S" ++ Nat.repr (i + 1)
    have harith : 0 + i + 1 = i + 1 := by omega
    rw [harith]

theorem C2_witness :
    ((programData [emptyRec] [] []).headD miniDefault |>.sessions.headD msessionDefault).id =
      ((programData [emptyRec] [] []).headD miniDefault).id ++ "-S" ++ Nat.repr 1 := by
  have h := C2_session_ids [emptyRec] [] []
    ((programData [emptyRec] [] []).headD miniDefault) (by decide) 0
    ((programData [emptyRec] [] []).headD miniDefault |>.sessions.headD msessionDefault)
    (by decide)
  simpa using h

theorem assignCodes_get?_fields (l : List Mini) (n i : Nat) (m : Mini)
    (h : (assignCodes n l).get? i = some m) :
    ∃ m0, l.get? i = some m0 ∧ m.organizers = m0.organizers ∧ m.title = m0.title ∧
      m.day = m0.day := by
  induction l generalizing n i with
  | nil => simp [assignCodes] at h
  | cons ms rest ih =>
    by_cases hc : isContribTitle ms.title = true
    · simp only [assignCodes, hc, if_true] at h
      cases i with
      | zero =>
        simp only [List.get?_cons_zero, Option.some.injEq] at h
        exact ⟨ms, rfl, by rw [← h], by rw [← h], by rw [← h]⟩
      | succ j =>
        simp only [List.get?_cons_succ] at h ⊢
        exact ih n j h
    · simp only [assignCodes, hc, if_false, Bool.false_eq_true] at h
      cases i with
      | zero =>
        simp only [List.get?_cons_zero, Option.some.injEq] at h
        exact ⟨ms, rfl, by rw [← h], by rw [← h], by rw [← h]⟩
      | succ j =>
        simp only [List.get?_cons_succ] at h ⊢
        exact ih (n + 1) j h

theorem fromSessionsOf_get? (recs : List SessionRecord) (bundles : List AbstractBundle)
    (i : Nat) (r : SessionRecord) (hr : recs.get? i = some r) :
    (fromSessionsOf recs bundles).get? i = some (mkFromSession bundles i r) := by
  unfold fromSessionsOf
  rw [mapWithIndex_get?, hr]
  simp

/-- The entry of the merged output at an index below the number of
structured records agrees with the normalized structured record on
organizers, title and day. -/
theorem programData_get?_fields (recs : List SessionRecord) (bundles : List AbstractBundle)
    (inRows : List ContribRow) (i : Nat) (r : SessionRecord) (m : Mini)
    (hr : recs.get? i = some r)
    (hm : (programData recs bundles inRows).get? i = some m) :
    m.organizers = (mkFromSession bundles i r).organizers ∧
    m.title = (mkFromSession bundles i r).title ∧
    m.day = (mkFromSession bundles i r).day := by
  have hm' : (assignCodes 1
      (fromSessionsOf recs bundles ++
        fromAbstractsOnlyOf bundles (existingTitlesOf (fromSessionsOf recs bundles)) ++
        (contributedOf (existingTitlesOf (fromSessionsOf recs bundles)) inRows).getD [])).get? i
      = some m := hm
  obtain ⟨m0, hm0, horg, htitle, hday⟩ := assignCodes_get?_fields _ 1 i m hm'
  have hfs := fromSessionsOf_get? recs bundles i r hr
  have hlen : i < (fromSessionsOf recs bundles).length := by
    by_contra hge
    rw [List.get?_eq_getElem?, List.getElem?_eq_none (by omega)] at hfs
    simp at hfs
  rw [List.get?_eq_getElem?, List.append_assoc, List.getElem?_append, if_pos hlen,
    ← List.get?_eq_getElem?, hfs] at hm0
  have hm0' : m0 = mkFromSession bundles i r := by
    injection hm0.symm
  rw [hm0'] at horg htitle hday
  exact ⟨horg, htitle, hday⟩

theorem mkFromSession_organizers (bundles : List AbstractBundle) (i : Nat)
    (r : SessionRecord) :
    (mkFromSession bundles i r).organizers =
      if r.organizers ≠ [] then r.organizers
      else (absMetaOrganizers bundles (slugify (recordTitle i r))).getD [] := rfl

/-- C4: a merged minisymposium built from a structured record takes its
organizers from the record when non-empty, otherwise from the unique
abstract bundle whose slugified title matches the record's slugified
title, otherwise the empty list. -/
theorem C4_organizer_fallback (recs : List SessionRecord) (bundles : List AbstractBundle)
    (inRows : List ContribRow) (i : Nat) (r : SessionRecord) (m : Mini)
    (hr : recs.get? i = some r)
    (hm : (programData recs bundles inRows).get? i = some m) :
    (r.organizers ≠ [] → m.organizers = r.organizers) ∧
    (r.organizers = [] → ∀ orgs, bundleMatches bundles (slugify (recordTitle i r)) = [orgs] →
      m.organizers = orgs) ∧
    (r.organizers = [] → bundleMatches bundles (slugify (recordTitle i r)) = [] →
      m.organizers = []) := by
  obtain ⟨horg, -, -⟩ := programData_get?_fields recs bundles inRows i r m hr hm
  rw [mkFromSession_organizers] at horg
  refine ⟨?_, ?_, ?_⟩
  · intro hne
    rw [horg, if_pos hne]
  · intro hemp orgs hmatch
    rw [horg, if_neg (fun hcon => hcon hemp)]
    unfold absMetaOrganizers
    rw [hmatch]
    rfl
  · intro hemp hmatch
    rw [horg, if_neg (fun hcon => hcon hemp)]
    unfold absMetaOrganizers
    rw [hmatch]
    rfl

theorem C4_witness :
    ((programData grecs [gbundle] []).headD miniDefault).organizers =
      [{ name := "Alice Doe", affiliation := "U of A" }] ∧
    (programData grecs [gbundle] []).map (fun m => m.title) = ["Graph Theory"] := by
  constructor
  · have h := C4_organizer_fallback grecs [gbundle] [] 0 (grecs.headD emptyRec)
      ((programData grecs [gbundle] []).headD miniDefault) (by decide) (by decide)
    exact h.2.1 (by decide) [{ name := "Alice Doe", affiliation := "U of A" }] (by decide)
  · decide

theorem mkFromSession_day (bundles : List AbstractBundle) (i : Nat) (r : SessionRecord) :
    (mkFromSession bundles i r).day = jsOr (recDay r) TEMP_DAY_OVERRIDE := rfl

theorem recValidDates_ne_empty (r : SessionRecord) (x : String)
    (hx : x ∈ recValidDates r) : x ≠ "" := by
  unfold recValidDates at hx
  rw [List.mem_filterMap] at hx
  obtain ⟨o, -, ho⟩ := hx
  cases o with
  | none => simp at ho
  | some s =>
    by_cases hs : s = ""
    · simp [hs] at ho
    · simp only [hs, if_false, Option.some.injEq] at ho
      rw [← ho]
      exact hs

/-- C5 fails as stated: the display day is the first ten characters of the
timestamp string as written (the local-offset date), not the UTC date
portion.  A session starting `2025-10-11T23:30:00-05:00` lies on
`2025-10-12` in UTC, yet the merged day is `2025-10-11`. -/
theorem C5_counterexample :
    ((programData [cx5rec] [] []).headD miniDefault).day = "2025-10-11" ∧
    utcDateOf "2025-10-11T23:30:00-05:00" = some "2025-10-12" ∧
    ((programData [cx5rec] [] []).headD miniDefault).day ≠ "2025-10-12" := by
  refine ⟨by decide, by decide, by decide⟩

/-- C5 (amended): the day of a merged minisymposium built from a structured
record is the lexicographically least ten-character date *prefix* among the
session and talk start strings (their date as written, with its local
offset), and the fixed fallback `2025-10-11` when no such prefix exists. -/
theorem C5_amended_day (recs : List SessionRecord) (bundles : List AbstractBundle)
    (inRows : List ContribRow) (i : Nat) (r : SessionRecord) (m : Mini)
    (hr : recs.get? i = some r)
    (hm : (programData recs bundles inRows).get? i = some m) :
    (recValidDates r = [] → m.day = TEMP_DAY_OVERRIDE) ∧
    (∀ d, recDay r = some d → m.day = d ∧ d ∈ recValidDates r ∧
      ∀ x ∈ recValidDates r, lexLe d.data x.data = true) ∧
    (recValidDates r ≠ [] → ∃ d, recDay r = some d) := by
  obtain ⟨-, -, hday⟩ := programData_get?_fields recs bundles inRows i r m hr hm
  rw [mkFromSession_day] at hday
  refine ⟨?_, ?_, ?_⟩
  · intro hnil
    rw [hday]
    show jsOr ((jsSortStrs (recValidDates r)).head?) TEMP_DAY_OVERRIDE = TEMP_DAY_OVERRIDE
    rw [hnil]
    rfl
  · intro d hd
    have hmin := head_jsSortStrs_min (recValidDates r) d hd
    refine ⟨?_, hmin.1, hmin.2⟩
    rw [hday]
    show jsOr (recDay r) TEMP_DAY_OVERRIDE = d
    rw [hd]
    have hne := recValidDates_ne_empty r d hmin.1
    simp [jsOr, truthyStr, hne]
  · intro hne
    cases hsort : (jsSortStrs (recValidDates r)).head? with
    | some d => exact ⟨d, hsort⟩
    | none =>
      exfalso
      cases hl : recValidDates r with
      | nil => exact hne hl
      | cons x xs =>
        have hx : x ∈ jsSortStrs (recValidDates r) := by
          rw [mem_jsSortStrs, hl]
          exact List.mem_cons_self _ _
        cases hhead : jsSortStrs (recValidDates r) with
        | nil =>
          rw [hhead] at hx
          simp at hx
        | cons a rest =>
          rw [hhead] at hsort
          simp at hsort

theorem C5_witness :
    ((programData [w5rec] [] []).headD miniDefault).day = "2025-10-11" := by
  have h := C5_amended_day [w5rec] [] [] 0 w5rec
    ((programData [w5rec] [] []).headD miniDefault) (by decide) (by decide)
  exact (h.2.1 "2025-10-11" (by decide)).1

/-! ## Counting titles through the merge -/

theorem countSlug_cons (k : String) (x : Mini) (l : List Mini) :
    countSlug k (x :: l) =
      if (slugify x.title == k) = true then countSlug k l + 1 else countSlug k l := by
  simp only [countSlug, List.filter_cons]
  split
  · simp [List.length_cons]
  · rfl

theorem countSlug_append (k : String) (l1 l2 : List Mini) :
    countSlug k (l1 ++ l2) = countSlug k l1 + countSlug k l2 := by
  simp [countSlug, List.filter_append]

theorem countSlug_assignCodes (k : String) (n : Nat) (l : List Mini) :
    countSlug k (assignCodes n l) = countSlug k l := by
  induction l generalizing n with
  | nil => rfl
  | cons ms rest ih =>
    by_cases hc : isContribTitle ms.title = true
    · simp only [assignCodes, hc, if_true]
      rw [countSlug_cons, countSlug_cons, ih n]
    · simp only [assignCodes, hc, if_false, Bool.false_eq_true]
      rw [countSlug_cons, countSlug_cons, ih (n + 1)]

theorem countSlug_eq_zero (k : String) (l : List Mini)
    (h : ∀ m ∈ l, slugify m.title ≠ k) : countSlug k l = 0 := by
  unfold countSlug
  rw [List.filter_eq_nil_iff.mpr]
  · rfl
  · intro m hm
    simp only [beq_iff_eq]
    exact h m hm

theorem countSlug_abstractsOnly_zero (k : String) (bundles : List AbstractBundle)
    (existing : List String) (hk : existing.contains k = true) :
    countSlug k (fromAbstractsOnlyOf bundles existing) = 0 := by
  apply countSlug_eq_zero
  intro m hm
  unfold fromAbstractsOnlyOf at hm
  rw [List.mem_flatMap] at hm
  obtain ⟨b, -, hb⟩ := hm
  unfold mkAbsOnly at hb
  split at hb
  · simp at hb
  · next t hbt =>
    split at hb
    · simp at hb
    · next hcontains =>
      rw [List.mem_singleton] at hb
      intro hcontra
      have htitle : m.title = t := by rw [hb]; rfl
      rw [htitle] at hcontra
      rw [hcontra] at hcontains
      exact hcontains hk

theorem countSlug_contributed_zero (etitles : List String) (rows : List ContribRow)
    (k : String) (hk1 : k ≠ "contributed-talks-1") (hk2 : k ≠ "contributed-talks-2")
    (hk3 : k ≠ "contributed-talks-3") :
    countSlug k ((contributedOf etitles rows).getD []) = 0 := by
  unfold contributedOf
  by_cases h1 : csvRows rows = []
  · simp [h1]
    rfl
  · rw [if_neg h1]
    by_cases h2 : etitles.contains (slugify "Contributed Talks") = true
    · rw [if_pos h2]
      rfl
    · rw [if_neg h2]
      have tproj : ∀ (a b c d e : String) (sl : List (String × String)) (tl : List MTalk),
          (mkCT a b c d e sl tl).title = b := fun _ _ _ _ _ _ _ => rfl
      have s1 : slugify "Contributed Talks 1" = "contributed-talks-1" := by decide
      have s2 : slugify "Contributed Talks 2" = "contributed-talks-2" := by decide
      have s3 : slugify "Contributed Talks 3" = "contributed-talks-3" := by decide
      show countSlug k [_, _, _] = 0
      rw [countSlug_cons, countSlug_cons, countSlug_cons, tproj, tproj, tproj, s1, s2, s3]
      simp only [beq_iff_eq, Ne.symm hk1, Ne.symm hk2, Ne.symm hk3, if_false]
      rfl

/-- C3 fails as stated: when *two* structured records share the title that
also appears as an abstract bundle, the merged output contains two
minisymposia with that title, not exactly one (the bundle still adds
none). -/
theorem C3_counterexample :
    bundleTitle gbundle = some "Graph Theory" ∧
    (programData cx3recs [gbundle] []).map (fun m => m.title) =
      ["Graph Theory", "Graph Theory"] ∧
    countSlug "graph-theory" (programData cx3recs [gbundle] []) = 2 := by
  refine ⟨by decide, by decide, by decide⟩

/-- C3 (amended): when a normalized title occurs among the structured
records (in particular when an abstract bundle shares it) and is not one of
the contributed-group titles, the merged output contains exactly as many
minisymposia with that normalized title as the structured records do — the
abstract bundle never becomes an additional standalone minisymposium.  With
a single structured occurrence the merged count is exactly one. -/
theorem C3_amended_dedup (recs : List SessionRecord) (bundles : List AbstractBundle)
    (inRows : List ContribRow) (k : String)
    (hk : (existingTitlesOf (fromSessionsOf recs bundles)).contains k = true)
    (hk1 : k ≠ "contributed-talks-1") (hk2 : k ≠ "contributed-talks-2")
    (hk3 : k ≠ "contributed-talks-3") :
    countSlug k (programData recs bundles inRows) =
      countSlug k (fromSessionsOf recs bundles) ∧
    (countSlug k (fromSessionsOf recs bundles) = 1 →
      countSlug k (programData recs bundles inRows) = 1) := by
  have hmain : countSlug k (programData recs bundles inRows) =
      countSlug k (fromSessionsOf recs bundles) := by
    show countSlug k (assignCodes 1
      (fromSessionsOf recs bundles ++
        fromAbstractsOnlyOf bundles (existingTitlesOf (fromSessionsOf recs bundles)) ++
        (contributedOf (existingTitlesOf (fromSessionsOf recs bundles)) inRows).getD [])) = _
    rw [countSlug_assignCodes, countSlug_append, countSlug_append]
    rw [countSlug_abstractsOnly_zero k bundles _ hk]
    rw [countSlug_contributed_zero _ inRows k hk1 hk2 hk3]
    omega
  exact ⟨hmain, fun h1 => hmain.trans h1⟩

theorem C3_witness :
    countSlug "graph-theory" (programData grecs [gbundle] []) = 1 := by
  have h := C3_amended_dedup grecs [gbundle] [] "graph-theory"
    (by decide) (by decide) (by decide) (by decide)
  exact h.2 (by decide)

/-! ## Injectivity of the numeric part of sequential codes -/

theorem toDigitsCore_eq_digits (fuel : Nat) :
    ∀ (n : Nat) (ds : List Char), 0 < n → n ≤ fuel →
      Nat.toDigitsCore 10 fuel n ds =
        ((Nat.digits 10 n).reverse.map Nat.digitChar) ++ ds := by
  induction fuel with
  | zero =>
    intro n ds hn hf
    omega
  | succ f ih =>
    intro n ds hn hf
    by_cases h10 : n / 10 = 0
    · rw [Nat.digits_def' (by norm_num : (1 : Nat) < 10) hn, h10]
      simp [Nat.toDigitsCore, h10]
    · have hn' : 0 < n / 10 := Nat.pos_of_ne_zero h10
      have hlt : n / 10 < n := Nat.div_lt_self hn (by norm_num)
      rw [Nat.digits_def' (by norm_num : (1 : Nat) < 10) hn]
      simp only [Nat.toDigitsCore, h10, if_false]
      rw [ih (n / 10) (Nat.digitChar (n % 10) :: ds) hn' (by omega)]
      simp [List.append_assoc]

theorem repr_eq_digits (n : Nat) (hn : 0 < n) :
    Nat.repr n = ((Nat.digits 10 n).reverse.map Nat.digitChar).asString := by
  unfold Nat.repr Nat.toDigits
  rw [toDigitsCore_eq_digits (n + 1) n [] hn (by omega)]
  rw [List.append_nil]

theorem digitChar_inj_lt : ∀ a < 10, ∀ b < 10, Nat.digitChar a = Nat.digitChar b → a = b := by
  decide

theorem digits_map_inj (l1 : List Nat) :
    ∀ l2 : List Nat, (∀ x ∈ l1, x < 10) → (∀ x ∈ l2, x < 10) →
      l1.map Nat.digitChar = l2.map Nat.digitChar → l1 = l2 := by
  induction l1 with
  | nil =>
    intro l2 _ _ heq
    cases l2 with
    | nil => rfl
    | cons b bs => simp at heq
  | cons a as ih =>
    intro l2 h1 h2 heq
    cases l2 with
    | nil => simp at heq
    | cons b bs =>
      simp only [List.map_cons, List.cons.injEq] at heq
      have hab : a = b :=
        digitChar_inj_lt a (h1 a (List.mem_cons_self _ _)) b (h2 b (List.mem_cons_self _ _))
          heq.1
      rw [hab, ih bs (fun x hx => h1 x (List.mem_cons_of_mem _ hx))
        (fun x hx => h2 x (List.mem_cons_of_mem _ hx)) heq.2]

theorem repr_pos_inj (m n : Nat) (hm : 0 < m) (hn : 0 < n)
    (h : Nat.repr m = Nat.repr n) : m = n := by
  rw [repr_eq_digits m hm, repr_eq_digits n hn] at h
  have hdata : ((Nat.digits 10 m).reverse.map Nat.digitChar) =
      ((Nat.digits 10 n).reverse.map Nat.digitChar) := congrArg String.data h
  have hrev : (Nat.digits 10 m).reverse = (Nat.digits 10 n).reverse := by
    apply digits_map_inj
    · intro x hx
      rw [List.mem_reverse] at hx
      exact Nat.digits_lt_base (by norm_num) hx
    · intro x hx
      rw [List.mem_reverse] at hx
      exact Nat.digits_lt_base (by norm_num) hx
    · exact hdata
  have hdig : Nat.digits 10 m = Nat.digits 10 n := List.reverse_injective hrev
  have hof := congrArg (Nat.ofDigits 10) hdig
  rw [Nat.ofDigits_digits, Nat.ofDigits_digits] at hof
  exact_mod_cast hof

theorem msCode_inj (m n : Nat) (hm : 0 < m) (hn : 0 < n) (h : msCode m = msCode n) :
    m = n := by
  unfold msCode at h
  have hdata := congrArg String.data h
  rw [String.data_append, String.data_append] at hdata
  have hdata' : (Nat.repr m).data = (Nat.repr n).data :=
    List.append_cancel_left hdata
  exact repr_pos_inj m n hm hn (String.ext hdata')

theorem msCode_head (m : Nat) : (msCode m).data.head? = some 'M' := by
  unfold msCode
  rw [String.data_append]
  rfl

theorem assignCodes_contrib_ids (l : List Mini) (n : Nat)
    (h : ∀ m ∈ l, isContribTitle m.title = true) :
    (assignCodes n l).map (fun m => m.id) = l.map (fun m => m.id) := by
  induction l generalizing n with
  | nil => rfl
  | cons ms rest ih =>
    have hc := h ms (List.mem_cons_self _ _)
    simp only [assignCodes, hc, if_true, List.map_cons]
    rw [ih n (fun m hm => h m (List.mem_cons_of_mem _ hm))]

theorem assignCodes_ids (l1 : List Mini) :
    ∀ (l2 : List Mini) (n : Nat), (∀ m ∈ l1, isContribTitle m.title = false) →
      (∀ m ∈ l2, isContribTitle m.title = true) →
      (assignCodes n (l1 ++ l2)).map (fun m => m.id) =
        (List.range' n l1.length).map msCode ++ l2.map (fun m => m.id) := by
  induction l1 with
  | nil =>
    intro l2 n _ h2
    simp only [List.nil_append, List.length_nil, List.range'_zero, List.map_nil]
    rw [assignCodes_contrib_ids l2 n h2]
  | cons ms rest ih =>
    intro l2 n h1 h2
    have hc := h1 ms (List.mem_cons_self _ _)
    simp only [List.cons_append, assignCodes, hc, if_false, Bool.false_eq_true,
      List.map_cons, List.length_cons, List.append_eq]
    rw [ih l2 (n + 1) (fun m hm => h1 m (List.mem_cons_of_mem _ hm)) h2]
    rw [List.range'_succ]
    simp

theorem contributedOf_some (etitles : List String) (rows : List ContribRow) (l : List Mini)
    (h : contributedOf etitles rows = some l) :
    l.map (fun m => m.id) = ["CT1", "CT2", "CT3"] ∧
    (∀ m ∈ l, isContribTitle m.title = true) := by
  unfold contributedOf at h
  by_cases h1 : csvRows rows = []
  · rw [if_pos h1] at h
    exact absurd h (by simp)
  · rw [if_neg h1] at h
    by_cases h2 : etitles.contains (slugify "Contributed Talks") = true
    · rw [if_pos h2] at h
      exact absurd h (by simp)
    · rw [if_neg h2] at h
      simp only [Option.some.injEq] at h
      subst h
      constructor
      · rfl
      · intro m hm
        have hct : ∀ (a b c d e : String) (sl : List (String × String)) (tl : List MTalk),
            (mkCT a b c d e sl tl).title = b := fun _ _ _ _ _ _ _ => rfl
        rcases List.mem_cons.mp hm with hm | hm
        · rw [hm, hct]
          decide
        · rcases List.mem_cons.mp hm with hm | hm
          · rw [hm, hct]
            decide
          · rcases List.mem_cons.mp hm with hm | hm
            · rw [hm, hct]
              decide
            · simp at hm

/-- C1 fails as stated: a structured record whose title merely *contains*
`contributed talks` is treated as a contributed group and keeps its
provisional id, which collides with the sequential code handed to the next
entry — two distinct merged entries share the id `MS1`. -/
theorem C1_counterexample :
    (programData cx1recs [] []).map (fun m => m.id) = ["MS1", "MS1"] ∧
    (programData cx1recs [] []).map (fun m => m.title) =
      ["my contributed talks extra", "X"] ∧
    ¬((programData cx1recs [] []).map (fun m => m.id)).Nodup := by
  refine ⟨by decide, by decide, by decide⟩

/-- C1 (amended): provided no structured or abstract-only entry has a title
containing `contributed talks` (so the only contributed-flagged entries are
the built-in groups), the merged ids are pairwise distinct: sequential
codes `MS1, MS2, …` in concatenation order for the non-contributed
entries, and the fixed reserved codes `CT1, CT2, CT3` for the
contributed-talk groups. -/
theorem C1_amended_unique_ids (recs : List SessionRecord) (bundles : List AbstractBundle)
    (inRows : List ContribRow)
    (hnc : ∀ m ∈ fromSessionsOf recs bundles ++
        fromAbstractsOnlyOf bundles (existingTitlesOf (fromSessionsOf recs bundles)),
      isContribTitle m.title = false) :
    ((programData recs bundles inRows).map (fun m => m.id)).Nodup ∧
    (programData recs bundles inRows).map (fun m => m.id) =
      (List.range' 1 ((fromSessionsOf recs bundles).length +
        (fromAbstractsOnlyOf bundles
          (existingTitlesOf (fromSessionsOf recs bundles))).length)).map msCode ++
      ((contributedOf (existingTitlesOf (fromSessionsOf recs bundles)) inRows).getD []).map
        (fun m => m.id) ∧
    (∀ l, contributedOf (existingTitlesOf (fromSessionsOf recs bundles)) inRows = some l →
      l.map (fun m => m.id) = ["CT1", "CT2", "CT3"]) := by
  have hct : ∀ m ∈ (contributedOf (existingTitlesOf (fromSessionsOf recs bundles))
      inRows).getD [], isContribTitle m.title = true := by
    cases hc : contributedOf (existingTitlesOf (fromSessionsOf recs bundles)) inRows with
    | none => simp
    | some l => exact (contributedOf_some _ inRows l hc).2
  have hids : (programData recs bundles inRows).map (fun m => m.id) =
      (List.range' 1 ((fromSessionsOf recs bundles).length +
        (fromAbstractsOnlyOf bundles
          (existingTitlesOf (fromSessionsOf recs bundles))).length)).map msCode ++
      ((contributedOf (existingTitlesOf (fromSessionsOf recs bundles)) inRows).getD []).map
        (fun m => m.id) := by
    have h := assignCodes_ids
      (fromSessionsOf recs bundles ++
        fromAbstractsOnlyOf bundles (existingTitlesOf (fromSessionsOf recs bundles)))
      ((contributedOf (existingTitlesOf (fromSessionsOf recs bundles)) inRows).getD [])
      1 hnc hct
    rw [List.length_append] at h
    exact h
  refine ⟨?_, hids, fun l hl => (contributedOf_some _ inRows l hl).1⟩
  rw [hids]
  apply List.Nodup.append
  · apply List.Nodup.map_on
    · intro x hx y hy hxy
      rw [List.mem_range'] at hx hy
      obtain ⟨i, hi, hxi⟩ := hx
      obtain ⟨j, hj, hyj⟩ := hy
      have hx0 : 0 < x := by omega
      have hy0 : 0 < y := by omega
      exact msCode_inj x y hx0 hy0 hxy
    · exact List.nodup_range' _ _
  · cases hc : contributedOf (existingTitlesOf (fromSessionsOf recs bundles)) inRows with
    | none => simp
    | some l =>
      show (l.map (fun m => m.id)).Nodup
      rw [(contributedOf_some _ inRows l hc).1]
      decide
  · intro x hx hx2
    rw [List.mem_map] at hx
    obtain ⟨mval, -, hmx⟩ := hx
    have hhead : x.data.head? = some 'M' := by
      rw [← hmx]
      exact msCode_head mval
    revert hx2
    cases hc : contributedOf (existingTitlesOf (fromSessionsOf recs bundles)) inRows with
    | none =>
      intro hx2
      simp at hx2
    | some l =>
      intro hx2
      have hx3 : x ∈ ["CT1", "CT2", "CT3"] := by
        rw [← (contributedOf_some _ inRows l hc).1]
        exact hx2
      rcases List.mem_cons.mp hx3 with h | h
      · rw [h] at hhead
        exact absurd hhead (by decide)
      · rcases List.mem_cons.mp h with h | h
        · rw [h] at hhead
          exact absurd hhead (by decide)
        · rcases List.mem_cons.mp h with h | h
          · rw [h] at hhead
            exact absurd hhead (by decide)
          · simp at h

theorem C1_witness :
    ((programData [emptyRec] [] []).map (fun m => m.id)).Nodup ∧
    (programData [emptyRec] [] []).map (fun m => m.id) = ["MS1"] := by
  have h := C1_amended_unique_ids [emptyRec] [] [] (by decide)
  exact ⟨h.1, by decide⟩

/-! ## The lookup index -/

/-- C8 fails as stated: the lookup index never draws candidates from the
structured session records.  Against a dataset whose only `Unique Talk`
lives in the structured records, the spec-side candidate pool has exactly
one match, yet the code's resolution returns not-found. -/
theorem C8_counterexample :
    ((specLookupPool cx8recs [] []).filter (fun t => t.slug == "unique-talk")).length = 1 ∧
    findTalk [] [] "unique-talk" none = none := by
  refine ⟨by decide, by decide⟩

/-- C8 (amended): the candidate pool is drawn from the abstract bundles (in
file order) followed by the contributed rows — not the structured session
records; with zero candidates the result is the first-class not-found value
`none`; with exactly one candidate it is returned; with several and a
matching disambiguator the first candidate whose minisymposium title
slugifies to it is returned; otherwise the first candidate in
source-enumeration order is returned. -/
theorem C8_amended_findTalk (bundles : List AbstractBundle) (inRows : List ContribRow)
    (slug : String) (msp : Option String) :
    lookupCandidates bundles inRows slug =
      (bundleEntries bundles).filter (fun t => t.slug == slug) ++
      (contribEntries inRows).filter (fun t => t.slug == slug) ∧
    (lookupCandidates bundles inRows slug = [] → findTalk bundles inRows slug msp = none) ∧
    (∀ c, lookupCandidates bundles inRows slug = [c] →
      findTalk bundles inRows slug msp = some c) ∧
    (∀ c, (lookupCandidates bundles inRows slug).head? = some c → msp = none →
      findTalk bundles inRows slug msp = some c) ∧
    (∀ m c, msp = some m →
      (lookupCandidates bundles inRows slug).find? (msMatch m) = some c →
      findTalk bundles inRows slug msp = some c) ∧
    (∀ m c, msp = some m →
      (lookupCandidates bundles inRows slug).find? (msMatch m) = none →
      (lookupCandidates bundles inRows slug).head? = some c →
      findTalk bundles inRows slug msp = some c) := by
  refine ⟨?_, ?_, ?_, ?_, ?_, ?_⟩
  · unfold lookupCandidates lookupAll
    exact List.filter_append _ _
  · intro hnil
    unfold findTalk
    rw [hnil]
  · intro c hc
    unfold findTalk
    rw [hc]
    cases msp with
    | none => rfl
    | some m =>
      show (match [c].find? (msMatch m) with
            | some t => some t
            | none => some c) = some c
      cases hf : [c].find? (msMatch m) with
      | none => rfl
      | some t =>
        have ht : t ∈ [c] := List.mem_of_find?_eq_some hf
        rw [List.mem_singleton] at ht
        rw [ht]
  · intro c hc hnone
    subst hnone
    unfold findTalk
    cases hcand : lookupCandidates bundles inRows slug with
    | nil =>
      rw [hcand] at hc
      simp at hc
    | cons c0 rest =>
      rw [hcand] at hc
      simp only [List.head?_cons, Option.some.injEq] at hc
      rw [hc]
  · intro m c hmsp hfind
    subst hmsp
    unfold findTalk
    cases hcand : lookupCandidates bundles inRows slug with
    | nil =>
      rw [hcand] at hfind
      simp at hfind
    | cons c0 rest =>
      rw [hcand] at hfind
      show (match (c0 :: rest).find? (msMatch m) with
            | some t => some t
            | none => some c0) = some c
      rw [hfind]
  · intro m c hmsp hfnone hc
    subst hmsp
    unfold findTalk
    cases hcand : lookupCandidates bundles inRows slug with
    | nil =>
      rw [hcand] at hc
      simp at hc
    | cons c0 rest =>
      rw [hcand] at hfnone hc
      simp only [List.head?_cons, Option.some.injEq] at hc
      show (match (c0 :: rest).find? (msMatch m) with
            | some t => some t
            | none => some c0) = some c
      rw [hfnone, hc]

theorem C8_witness : findTalk w8bundles [] "tbd" none = some w8first := by
  have h := C8_amended_findTalk w8bundles [] "tbd" none
  exact h.2.2.2.1 w8first (by decide) rfl

/-! ## Contributed-row speakers -/

theorem mem_zipWith_ex (f : α → β → γ) (xs : List α) :
    ∀ (ys : List β) (z : γ), z ∈ List.zipWith f xs ys →
      ∃ x ∈ xs, ∃ y ∈ ys, z = f x y := by
  induction xs with
  | nil =>
    intro ys z hz
    simp at hz
  | cons x xs' ih =>
    intro ys z hz
    cases ys with
    | nil => simp at hz
    | cons y ys' =>
      rw [List.zipWith_cons_cons] at hz
      rcases List.mem_cons.mp hz with hz | hz
      · exact ⟨x, List.mem_cons_self _ _, y, List.mem_cons_self _ _, hz⟩
      · obtain ⟨x', hx', y', hy', hz'⟩ := ih ys' z hz
        exact ⟨x', List.mem_cons_of_mem _ hx', y', List.mem_cons_of_mem _ hy', hz'⟩

theorem mem_ct_session_talks (slots : List (String × String)) (talks : List MTalk)
    (t : MTalk) (ht : t ∈ (assignSlots slots talks).filter talkTitleTruthy) :
    ∃ t0 ∈ talks, t.speakers = t0.speakers := by
  rw [List.mem_filter] at ht
  obtain ⟨t0, ht0, sl, -, hteq⟩ := mem_zipWith_ex _ talks slots t ht.1
  refine ⟨t0, ht0, ?_⟩
  rw [hteq]

theorem mem_ctTalks_ex (rows : List ContribRow) (t0 : MTalk) (ht0 : t0 ∈ ctTalks rows) :
    ∃ r ∈ filteredRowsOf rows, t0 = ctTalkOfRow r := by
  unfold ctTalks at ht0
  have h1 := List.mem_of_mem_take ht0
  rw [List.mem_map] at h1
  obtain ⟨r, hr, hrt⟩ := h1
  exact ⟨r, hr, hrt.symm⟩

theorem contributedOf_talk_speakers (etitles : List String) (rows : List ContribRow)
    (l : List Mini) (m : Mini) (s : MSession) (t : MTalk)
    (hl : contributedOf etitles rows = some l) (hm : m ∈ l) (hs : s ∈ m.sessions)
    (ht : t ∈ s.talks) :
    ∃ r ∈ filteredRowsOf rows,
      t.speakers = [{ name := rowName r, affiliation := jsTrim (jsOr r.Affiliation "") }] := by
  unfold contributedOf at hl
  by_cases h1 : csvRows rows = []
  · rw [if_pos h1] at hl
    exact absurd hl (by simp)
  · rw [if_neg h1] at hl
    by_cases h2 : etitles.contains (slugify "Contributed Talks") = true
    · rw [if_pos h2] at hl
      exact absurd hl (by simp)
    · rw [if_neg h2] at hl
      simp only [Option.some.injEq] at hl
      subst hl
      have hsession : ∀ (a b c d e : String) (sl : List (String × String))
          (tl : List MTalk), s ∈ (mkCT a b c d e sl tl).sessions → t ∈ s.talks →
          ∃ t0 ∈ tl, t.speakers = t0.speakers := by
        intro a b c d e sl tl hs' ht'
        have hsess : (mkCT a b c d e sl tl).sessions =
            [{ id := a ++ "-S1", start := d, stop := e, chair := none, room := some c,
               talks := (assignSlots sl tl).filter talkTitleTruthy }] := rfl
        rw [hsess, List.mem_singleton] at hs'
        rw [hs'] at ht'
        exact mem_ct_session_talks sl tl t ht'
      have hfromTalks : ∀ t0 ∈ ctTalks rows, t.speakers = t0.speakers →
          ∃ r ∈ filteredRowsOf rows,
            t.speakers =
              [{ name := rowName r, affiliation := jsTrim (jsOr r.Affiliation "") }] := by
        intro t0 ht0 hsp
        obtain ⟨r, hr, hrt⟩ := mem_ctTalks_ex rows t0 ht0
        refine ⟨r, hr, ?_⟩
        rw [hsp, hrt]
        rfl
      rcases List.mem_cons.mp hm with hm | hm
      · subst hm
        obtain ⟨t0, ht0, hsp⟩ := hsession _ _ _ _ _ _ _ hs ht
        exact hfromTalks t0 (List.mem_of_mem_take ht0) hsp
      · rcases List.mem_cons.mp hm with hm | hm
        · subst hm
          obtain ⟨t0, ht0, hsp⟩ := hsession _ _ _ _ _ _ _ hs ht
          exact hfromTalks t0 (List.mem_of_mem_drop (List.mem_of_mem_take ht0)) hsp
        · rcases List.mem_cons.mp hm with hm | hm
          · subst hm
            obtain ⟨t0, ht0, hsp⟩ := hsession _ _ _ _ _ _ _ hs ht
            exact hfromTalks t0 (List.mem_of_mem_drop (List.mem_of_mem_take ht0)) hsp
          · simp at hm

/-- C10 fails as stated: a contributed row with a non-empty title and blank
first/last names produces, in the merged program, a talk whose speakers
list holds exactly one speaker with the empty name — only the lookup-index
entry has an empty speakers list. -/
theorem C10_counterexample :
    (programData [] [] [cx10row]).map
        (fun m => m.sessions.map (fun s => s.talks.map (fun t => t.speakers))) =
      [[[[{ name := "", affiliation := "A" }]]], [[]], [[]]] ∧
    ((((programData [] [] [cx10row]).headD miniDefault).sessions.headD
        msessionDefault).talks.headD ⟨none, none, none, []⟩).speakers ≠ [] ∧
    (contribEntries [cx10row]).map (fun e => e.speakers) = [[]] := by
  refine ⟨by decide, by decide, by decide⟩

/-- C10 (amended): every talk of the merged contributed groups carries
exactly one speaker entry — named by the joined first/last name, possibly
empty — while the lookup-index entry of a row has an empty speakers list
exactly when the joined name is empty. -/
theorem C10_amended_speakers :
    (∀ (etitles : List String) (rows : List ContribRow) (l : List Mini) (m : Mini)
      (s : MSession) (t : MTalk), contributedOf etitles rows = some l → m ∈ l →
      s ∈ m.sessions → t ∈ s.talks →
      ∃ r ∈ filteredRowsOf rows,
        t.speakers =
          [{ name := rowName r, affiliation := jsTrim (jsOr r.Affiliation "") }]) ∧
    (∀ (r : ContribRow) (e : TalkEntry), contribEntryOfRow r = some e →
      (rowName r = "" → e.speakers = []) ∧
      (rowName r ≠ "" →
        e.speakers = [{ name := rowName r, affiliation := jsTrim (jsOr r.Affiliation "") }])) := by
  constructor
  · intro etitles rows l m s t hl hm hs ht
    exact contributedOf_talk_speakers etitles rows l m s t hl hm hs ht
  · intro r e he
    unfold contribEntryOfRow at he
    by_cases htitle : jsTrim (jsOr r.Title "") = ""
    · rw [if_pos htitle] at he
      exact absurd he (by simp)
    · rw [if_neg htitle] at he
      simp only [Option.some.injEq] at he
      constructor
      · intro hname
        rw [← he]
        simp [hname]
      · intro hname
        rw [← he]
        simp [hname]

theorem C10_witness :
    (∃ r ∈ filteredRowsOf [cx10row],
      ((((programData [] [] [cx10row]).headD miniDefault).sessions.headD
          msessionDefault).talks.headD ⟨none, none, none, []⟩).speakers =
        [{ name := rowName r, affiliation := jsTrim (jsOr r.Affiliation "") }]) ∧
    ((contribEntries [cx10row]).headD
        ⟨none, none, [], "", "", false⟩).speakers = [] := by
  constructor
  · exact C10_amended_speakers.1 [] [cx10row]
      ((contributedOf [] [cx10row]).getD [])
      (((contributedOf [] [cx10row]).getD []).headD miniDefault)
      ((((contributedOf [] [cx10row]).getD []).headD miniDefault).sessions.headD
        msessionDefault)
      ((((programData [] [] [cx10row]).headD miniDefault).sessions.headD
        msessionDefault).talks.headD ⟨none, none, none, []⟩)
      (by decide) (by decide) (by decide) (by decide)
  · exact (C10_amended_speakers.2 cx10row
      ((contribEntries [cx10row]).headD ⟨none, none, [], "", "", false⟩)
      (by decide)).1 (by decide)
